import Mathlib

/-!
Verification of the CVPR proceedings scraper (`download_cvpr_papers.py` and
`check_pdfs.py`) against its natural-language specification.

The Python sources are shallowly embedded below: strings are lists of
characters, file bodies are lists of bytes (naturals), the output directory
is an association list from file name to body, and the failure ledger file
is an `Option` association list (`none` = the file is absent).  HTML
parsing and HTTP transport are out of scope of the spec and are modelled as
oracles inside `RunEnv`: `index` is the parsed listing page (`none` = the
index GET failed), `detail url` is the list of anchors of a detail page
(`none` = the detail GET failed), and `fetch url attempt` is the response
observed by the `attempt`-th streaming GET of `url`.  Console printing and
real-time sleeping are not modelled, except that the retry loop records the
sleep durations it would perform so that the retry-delay claim is statable.
-/

namespace CvprScraper

/-- Strings of the Python program, as lists of characters. -/
abbrev Str := List Char

/-- File bodies, as lists of bytes. -/
abbrev Bytes := List Nat

/-- The in-memory failure dictionary and the parsed ledger file:
an insertion-ordered association list from title to retry URL. -/
abbrev Ledger := List (Str × Str)

/-- The output directory: an association list from file name to body. -/
abbrev Fs := List (Str × Bytes)

/-! ### Generic association-list (Python `dict` / directory) operations -/

/-- `m[k]` lookup returning an `Option` (`dict.get` / reading a file). -/
def aGet {α : Type} : List (Str × α) → Str → Option α
  | [], _ => none
  | p :: m, k => if p.1 = k then some p.2 else aGet m k

/-- `k in m` (Python truthiness of membership / `Path.exists`). -/
def aHas {α : Type} (m : List (Str × α)) (k : Str) : Bool :=
  (aGet m k).isSome

/-- `m[k] = v`: replace in place if the key is present, else append —
Python `dict` upsert semantics, also used for writing a file. -/
def aSet {α : Type} (m : List (Str × α)) (k : Str) (v : α) : List (Str × α) :=
  if aHas m k then m.map (fun p => if p.1 = k then (k, v) else p)
  else m ++ [(k, v)]

/-- `m.pop(k, None)` / `Path.unlink`: drop the key if present. -/
def aPop {α : Type} : List (Str × α) → Str → List (Str × α)
  | [], _ => []
  | p :: m, k => if p.1 = k then aPop m k else p :: aPop m k

/-- `m.update(m2)`: upsert every entry of `m2` into `m`, in order. -/
def aUpdate {α : Type} (m m2 : List (Str × α)) : List (Str × α) :=
  m2.foldl (fun acc p => aSet acc p.1 p.2) m

/-- The keys of an association list, in order. -/
def keysOf {α : Type} (m : List (Str × α)) : List Str :=
  m.map Prod.fst

/-! ### `fix_name` (filename sanitizer, `download_cvpr_papers.py` lines 7-10) -/

/-- ASCII whitespace matched by the regex class `\s`. -/
def isSpaceCh (c : Char) : Bool :=
  c == ' ' || c == '\t' || c == '\n' || c == '\r' || c == '\x0b' || c == '\x0c'

/-- The characters removed by `re.sub(r'[<>:"/\\|?*]', '', txt)`. -/
def illegalCh (c : Char) : Bool :=
  ['<', '>', ':', '"', '/', '\\', '|', '?', '*'].contains c

/-- `re.sub(r'\s+', ' ', txt)`: replace every maximal whitespace run by a
single space.  The boolean argument records whether the previous character
belonged to a whitespace run. -/
def collapseWS : Bool → Str → Str
  | _, [] => []
  | prev, c :: rest =>
    if isSpaceCh c then
      if prev then collapseWS true rest
      else ' ' :: collapseWS true rest
    else c :: collapseWS false rest

/-- Python `str.strip()`: drop leading and trailing whitespace. -/
def stripStr (s : Str) : Str :=
  ((s.dropWhile isSpaceCh).reverse.dropWhile isSpaceCh).reverse

/-- `fix_name(txt)`: remove the illegal path characters, collapse whitespace
runs to single spaces, strip, and truncate to 200 characters (`txt[:200]`). -/
def fix_name (s : Str) : Str :=
  (stripStr (collapseWS false (s.filter (fun c => !(illegalCh c))))).take 200

/-- The destination file name of a title: `fix_name(title) + ".pdf"`. -/
def fnameOf (t : Str) : Str :=
  fix_name t ++ ['.', 'p', 'd', 'f']

/-! ### `is_pdf` (lines 12-19) and the two size criteria -/

/-- The four magic bytes `b'%PDF'`. -/
def pdfMagic : Bytes := [37, 80, 68, 70]

/-- `is_pdf(filepath)`: read the first four bytes and compare them with the
magic sequence; a missing file or I/O error (`none`) yields `False`. -/
def is_pdf : Option Bytes → Bool
  | none => false
  | some b => decide (b.take 4 = pdfMagic)

/-- `path.stat().st_size` of a file in the directory (0 when absent; the
call sites below only use it on files known to exist). -/
def fileSize (fs : Fs) (p : Str) : Nat :=
  match aGet fs p with
  | some b => b.length
  | none => 0

/-- The skip check of `main` (line 158):
`fname.exists() and fname.stat().st_size > 1024 and is_pdf(fname)`.
The standalone checker `check_pdfs.py` applies the same criterion. -/
def skipValid (fs : Fs) (p : Str) : Bool :=
  aHas fs p && decide (fileSize fs p > 1024) && is_pdf (aGet fs p)

/-! ### `find_pdf_url` (lines 21-47) -/

/-- An anchor (`<a>`) of a parsed detail page: its `href` attribute (absent
when the tag has none) and its visible text. -/
structure Anchor where
  href : Option Str
  text : Str
deriving DecidableEq

/-- Lowercase a string character-wise (ASCII case folding of the sources). -/
def lowerStr (s : Str) : Str := s.map Char.toLower

/-- The filter `href=re.compile(r'\.pdf$', re.IGNORECASE)`: the href ends in
`.pdf` up to case. -/
def endsWithPdfCI (h : Str) : Bool :=
  decide (['.', 'p', 'd', 'f'] <:+ lowerStr h)

/-- An anchor matched by the first strategy: it has an `href` whose value
ends in `.pdf` case-insensitively. -/
def matchesA (a : Anchor) : Bool :=
  match a.href with
  | none => false
  | some h => endsWithPdfCI h

/-- The second strategy's test: `link.get_text().strip().lower() == 'pdf'`. -/
def textIsPdf (a : Anchor) : Bool :=
  decide (lowerStr (stripStr a.text) = ['p', 'd', 'f'])

/-- First loop of `find_pdf_url`: over anchors matching the regex filter,
return the first truthy href. -/
def loopA : List Anchor → Option Str
  | [] => none
  | a :: rest =>
    if matchesA a then
      match a.href with
      | some h => if h.isEmpty then loopA rest else some h
      | none => loopA rest
    else loopA rest

/-- Second loop of `find_pdf_url`: over all anchors whose stripped,
lowercased text equals `pdf`, return the first truthy href. -/
def loopB : List Anchor → Option Str
  | [] => none
  | a :: rest =>
    if textIsPdf a then
      match a.href with
      | some h => if h.isEmpty then loopB rest else some h
      | none => loopB rest
    else loopB rest

/-- `find_pdf_url(paper_url, session)`: `none` when the GET of the detail
page raises (`page = none`) or neither loop yields a href; otherwise
`urljoin(paper_url, href)` of the first href found, first loop first.
`uj` is the (out-of-scope) `urllib.parse.urljoin`. -/
def find_pdf_url (uj : Str → Str → Str) (paperUrl : Str)
    (page : Option (List Anchor)) : Option Str :=
  match page with
  | none => none
  | some anchors =>
    match loopA anchors with
    | some h => some (uj paperUrl h)
    | none =>
      match loopB anchors with
      | some h => some (uj paperUrl h)
      | none => none

/-! ### `grab_file` (lines 49-85) -/

/-- Outcome of one streaming GET: a transport exception — possibly after
part of the body was already written to the destination (`err (some p)`),
or before the file was opened (`err none`) — or the full body. -/
inductive FetchOutcome where
  | err (part : Option Bytes)
  | ok (body : Bytes)
deriving DecidableEq

/-- An HTTP response as `grab_file` observes it.  `contentType` and
`contentLength` only feed console output in the source (a warning and the
progress percentage) and are carried here to state that the result does not
depend on them. -/
structure Resp where
  contentType : Str
  contentLength : Nat
  outcome : FetchOutcome
deriving DecidableEq

/-- `grab_file(url, path, session)`: stream the response to `path`, then
`return False` unless the written file passes `is_pdf` and has size at
least 1024 (`st_size < 1024` is the rejection test).  On a transport
exception the partial file, when one was written, is left in place — the
caller removes it. -/
def grab_file (resp : Resp) (path : Str) (fs : Fs) : Bool × Fs :=
  match resp.outcome with
  | .err none => (false, fs)
  | .err (some part) => (false, aSet fs path part)
  | .ok body =>
    let fs2 := aSet fs path body
    if !(is_pdf (aGet fs2 path)) then (false, fs2)
    else if fileSize fs2 path < 1024 then (false, fs2)
    else (true, fs2)

/-! ### Ledger file I/O (lines 87-97) -/

/-- `load_log(logf)`: absent file gives an empty dict; the parsed content
otherwise.  (A malformed file is also mapped to `{}` by the source; ledger
file contents are modelled already parsed, so malformedness has no
representation here.) -/
def load_log : Option Ledger → Ledger
  | none => []
  | some m => m

/-- `save_log(logf, data)`: the ledger file now holds exactly `data`. -/
def save_log (d : Ledger) : Option Ledger := some d

/-! ### The run (`main`, lines 99-209) -/

/-- The environment of one invocation: the parsed index page (`none` when
the index GET raises), the parsed detail pages, the per-attempt download
responses, and `urljoin`. -/
structure RunEnv where
  index : Option (List (Str × Str))
  detail : Str → Option (List Anchor)
  fetch : Str → Nat → Resp
  urljoin : Str → Str → Str

/-- Durable state between runs: the output directory and the ledger file
(`none` = `failed.json` is absent). -/
structure St where
  fs : Fs
  ledger : Option Ledger
deriving DecidableEq

/-- In-memory state threaded through the item loop: the directory, the
`failed` dict (loaded at start, pruned per item), the `new_failed` dict,
and the `done` / `bad` counters. -/
structure LoopSt where
  fs : Fs
  failed : Ledger
  newFailed : Ledger
  done : Nat
  bad : Nat
deriving DecidableEq

/-- Result of the retry loop (`for attempt in range(args.max_retries)`):
whether some attempt succeeded, the directory afterwards, how many attempts
were made, and the `time.sleep` durations performed inside the loop. -/
structure TryResult where
  success : Bool
  fs : Fs
  attempts : Nat
  sleeps : List Nat
deriving DecidableEq

/-- The retry loop around `grab_file`: attempt indices count up from
`attempt`, at most `fuel` more attempts are made, a 2-second sleep precedes
every attempt other than attempt 0, and after every failed attempt the
destination is unlinked when it exists (`if fname.exists(): fname.unlink()`). -/
def tryDownload (env : RunEnv) (url path : Str) :
    Nat → Nat → Fs → TryResult
  | _, 0, fs => ⟨false, fs, 0, []⟩
  | attempt, fuel + 1, fs =>
    let sl : List Nat := if attempt = 0 then [] else [2]
    match grab_file (env.fetch url attempt) path fs with
    | (true, fs2) => ⟨true, fs2, 1, sl⟩
    | (false, fs2) =>
      let fs3 := if aHas fs2 path then aPop fs2 path else fs2
      let r := tryDownload env url path (attempt + 1) fuel fs3
      ⟨r.success, r.fs, r.attempts + 1, sl ++ r.sleeps⟩

/-- The download half of the loop body (lines 176-194): run the retry loop;
on success pop the title from `failed` and bump `done`; on failure bump
`bad` and record `new_failed[title] = pdf_url`. -/
def downloadStep (env : RunEnv) (maxRetries : Nat) (ls : LoopSt)
    (title pdfUrl : Str) : LoopSt :=
  let r := tryDownload env pdfUrl (fnameOf title) 0 maxRetries ls.fs
  if r.success then
    { ls with fs := r.fs, failed := aPop ls.failed title, done := ls.done + 1 }
  else
    { ls with fs := r.fs, bad := ls.bad + 1,
              newFailed := aSet ls.newFailed title pdfUrl }

/-- One iteration of `for i, (title, paper_page_url) in enumerate(todo, 1)`
(lines 154-196).  A pre-existing valid file short-circuits to a `failed`
pop; otherwise the PDF URL is the stored one (retry mode with the title in
`failed`) or comes from `find_pdf_url`, whose failure records
`new_failed[title] = paper_page_url`; then the download step runs. -/
def processItem (env : RunEnv) (retryFlag : Bool) (maxRetries : Nat)
    (ls : LoopSt) (item : Str × Str) : LoopSt :=
  if skipValid ls.fs (fnameOf item.1) then
    { ls with failed := aPop ls.failed item.1 }
  else
    match (if retryFlag then aGet ls.failed item.1 else none) with
    | some pdfUrl => downloadStep env maxRetries ls item.1 pdfUrl
    | none =>
      match find_pdf_url env.urljoin item.2 (env.detail item.2) with
      | none =>
        { ls with bad := ls.bad + 1,
                  newFailed := aSet ls.newFailed item.1 item.2 }
      | some pdfUrl => downloadStep env maxRetries ls item.1 pdfUrl

/-- The item loop followed by the end-of-run ledger write (lines 151-202):
fold the loop body over `todo`, then persist `failed.update(new_failed)`
when `new_failed` is non-empty or (in retry mode) `failed` is non-empty,
else delete the ledger file. -/
def run_items (env : RunEnv) (retryFlag : Bool) (maxRetries : Nat)
    (fs0 : Fs) (failed0 : Ledger) (todo : List (Str × Str)) : St × LoopSt :=
  let ls := todo.foldl (processItem env retryFlag maxRetries)
    ⟨fs0, failed0, [], 0, 0⟩
  let ledger2 : Option Ledger :=
    if !ls.newFailed.isEmpty || (retryFlag && !ls.failed.isEmpty) then
      save_log (aUpdate ls.failed ls.newFailed)
    else none
  (⟨ls.fs, ledger2⟩, ls)

/-- `main()`: load the ledger; in retry mode with a non-empty loaded dict
the todo list is its entries, otherwise the index page is fetched — when
that GET fails the run returns at once (`return`, line 133) leaving the
state untouched and processing nothing (`none` second component). -/
def run (env : RunEnv) (retryFlag : Bool) (maxRetries : Nat) (st : St) :
    St × Option LoopSt :=
  let failed0 := load_log st.ledger
  if retryFlag && !failed0.isEmpty then
    let r := run_items env retryFlag maxRetries st.fs failed0 failed0
    (r.1, some r.2)
  else
    match env.index with
    | none => (st, none)
    | some items =>
      let r := run_items env retryFlag maxRetries st.fs failed0 items
      (r.1, some r.2)

/-- The durable state after one invocation. -/
def runSt (env : RunEnv) (retryFlag : Bool) (maxRetries : Nat) (st : St) :
    St :=
  (run env retryFlag maxRetries st).1

/-- The todo list an invocation processes (empty when the run aborts on the
index GET). -/
def todoOf (env : RunEnv) (retryFlag : Bool) (st : St) : List (Str × Str) :=
  let failed0 := load_log st.ledger
  if retryFlag && !failed0.isEmpty then failed0
  else
    match env.index with
    | none => []
    | some items => items

/-- One invocation of the script: its environment and CLI flags
(`--retry-failed`, `--max-retries`; the latter defaults to 3). -/
structure RunSpec where
  env : RunEnv
  retryFlag : Bool
  maxRetries : Nat

/-- A sequence of invocations, earliest first. -/
def runSeq (specs : List RunSpec) (st : St) : St :=
  specs.foldl (fun s sp => runSt sp.env sp.retryFlag sp.maxRetries s) st

/-! ### Derived notions used to state the claims -/

/-- Two adjacent characters are never both whitespace — the shape of a
string whose whitespace runs have been collapsed. -/
def noAdjSpaces (a b : Char) : Prop :=
  ¬ (isSpaceCh a = true ∧ isSpaceCh b = true)

/-- Python truthiness of `link.get('href')`: present and non-empty. -/
def hrefTruthy (a : Anchor) : Bool :=
  match a.href with
  | none => false
  | some h => !h.isEmpty

/-- Whether one download attempt with this response is accepted: the body
arrived in full, starts with the magic bytes and is at least 1024 bytes
long.  (`grab_file` returns exactly this, independent of the directory.) -/
def grabOk (resp : Resp) : Bool :=
  match resp.outcome with
  | .err _ => false
  | .ok body => is_pdf (some body) && decide (1024 ≤ body.length)

/-- Whether the retry loop starting at attempt `attempt` with `fuel`
remaining attempts eventually succeeds — a function of the responses only. -/
def trySucc (env : RunEnv) (url : Str) : Nat → Nat → Bool
  | _, 0 => false
  | attempt, fuel + 1 =>
    grabOk (env.fetch url attempt) || trySucc env url (attempt + 1) fuel

/-- Whether processing an item that is not skipped (no valid pre-existing
file, normal mode) ends in success: resolution must yield a URL and the
retry loop must succeed on it. -/
def outcomeOf (env : RunEnv) (maxRetries : Nat) (item : Str × Str) : Bool :=
  match find_pdf_url env.urljoin item.2 (env.detail item.2) with
  | none => false
  | some url => trySucc env url 0 maxRetries

/-- `fnameOf` is injective on a universe `T` of titles: distinct titles of
interest sanitize to distinct file names. -/
def FnameInj (T : Str → Prop) : Prop :=
  ∀ t1 t2, T t1 → T t2 → fnameOf t1 = fnameOf t2 → t1 = t2

/-- No fully transferred body has length exactly 1024 — the boundary on
which the download acceptance check (`size ≥ 1024`) and the skip check
(`size > 1024`) disagree. -/
def FetchOk (env : RunEnv) : Prop :=
  ∀ url n body, (env.fetch url n).outcome = .ok body → body.length ≠ 1024

/-- Assumptions about one invocation's environment, relative to a universe
`T` of titles: the index lists pairwise distinct titles drawn from `T`,
and the fetches avoid the 1024-byte boundary. -/
def GoodEnv (T : Str → Prop) (env : RunEnv) : Prop :=
  (∀ items, env.index = some items →
    (items.map Prod.fst).Nodup ∧ ∀ p ∈ items, T p.1) ∧
  FetchOk env

/-- The invariant carried through the item loop, relative to the starting
`failed` dictionary `failed0`, the titles `allT` of the whole todo list,
and the titles `psT` of the items already processed: remaining `failed`
entries come from `failed0`; `new_failed` titles were processed; a
processed title still in `failed` is also in `new_failed`; every
`new_failed` title's file is absent or invalid; every `failed` title not
in the todo list at all (stale) has an absent or invalid file; and every
processed title in neither dictionary has a present, valid file. -/
def LoopInv (failed0 : Ledger) (allT psT : List Str)
    (ls : LoopSt) : Prop :=
  (∀ p ∈ ls.failed, p ∈ failed0) ∧
  (∀ t, aHas ls.newFailed t = true → t ∈ psT) ∧
  (∀ t, aHas ls.failed t = true → t ∈ psT → aHas ls.newFailed t = true) ∧
  (∀ t, aHas ls.newFailed t = true → skipValid ls.fs (fnameOf t) = false) ∧
  (∀ t, aHas ls.failed t = true → ¬ t ∈ allT →
    skipValid ls.fs (fnameOf t) = false) ∧
  (∀ t ∈ psT, aHas ls.failed t = false → aHas ls.newFailed t = false →
    skipValid ls.fs (fnameOf t) = true)

/-- The durable invariant of the ledger file: its titles are pairwise
distinct members of `T`, and each one's local file is absent or invalid. -/
def LedgerInv (T : Str → Prop) (st : St) : Prop :=
  ((load_log st.ledger).map Prod.fst).Nodup ∧
  (∀ p ∈ load_log st.ledger, T p.1) ∧
  (∀ p ∈ load_log st.ledger, skipValid st.fs (fnameOf p.1) = false)

/-! ### Concrete scenarios used to settle the claims on specific inputs -/

/-- A sample title. -/
def t1 : Str := "paper".toList

/-- A sample detail-page URL. -/
def u1 : Str := "page1".toList

/-- A body of exactly 1024 bytes starting with the magic sequence: accepted
by `grab_file` (`st_size < 1024` is false) yet rejected by the skip check
(`st_size > 1024` is false). -/
def bodyBoundary : Bytes := pdfMagic ++ List.replicate 1020 0

/-- A 2000-byte body with the magic sequence: valid under both criteria. -/
def bodyValid : Bytes := pdfMagic ++ List.replicate 1996 0

/-- A 500-byte body with the magic sequence. -/
def bodySmall : Bytes := pdfMagic ++ List.replicate 496 0

/-- A 2000-byte body with wrong leading bytes. -/
def bodyWrongMagic : Bytes := List.replicate 2000 0

/-- Environment with one item whose resolved document is `bodyBoundary`. -/
def boundaryEnv : RunEnv :=
  { index := some [(t1, u1)]
  , detail := fun _ => some [⟨some ('x' :: '.' :: 'p' :: 'd' :: 'f' :: []), ['p', 'd', 'f']⟩]
  , fetch := fun _ _ => ⟨[], 1024, .ok bodyBoundary⟩
  , urljoin := fun _ h => h }

/-- Environment with one item whose resolved document is `bodyValid`. -/
def goodEnv : RunEnv :=
  { index := some [(t1, u1)]
  , detail := fun _ => some [⟨some ('x' :: '.' :: 'p' :: 'd' :: 'f' :: []), ['p', 'd', 'f']⟩]
  , fetch := fun _ _ => ⟨[], 2000, .ok bodyValid⟩
  , urljoin := fun _ h => h }

/-- Environment with one item whose detail page holds no anchors, so
resolution fails and the item is recorded in the ledger. -/
def noLinkEnv : RunEnv :=
  { index := some [(t1, u1)]
  , detail := fun _ => some []
  , fetch := fun _ _ => ⟨[], 0, .err none⟩
  , urljoin := fun _ h => h }

/-- Environment whose index lists nothing. -/
def emptyIndexEnv : RunEnv :=
  { index := some []
  , detail := fun _ => none
  , fetch := fun _ _ => ⟨[], 0, .err none⟩
  , urljoin := fun _ h => h }

/-- Environment whose index GET fails. -/
def deadIndexEnv : RunEnv :=
  { index := none
  , detail := fun _ => none
  , fetch := fun _ _ => ⟨[], 0, .err none⟩
  , urljoin := fun _ h => h }

/-- Environment where every download attempt raises mid-stream. -/
def failFetchEnv : RunEnv :=
  { index := some [(t1, u1)]
  , detail := fun _ => some [⟨some ('x' :: '.' :: 'p' :: 'd' :: 'f' :: []), ['p', 'd', 'f']⟩]
  , fetch := fun _ _ => ⟨[], 0, .err (some [1, 2, 3])⟩
  , urljoin := fun _ h => h }

/-- Empty initial state: empty directory, no ledger file. -/
def st0 : St := ⟨[], none⟩

/-- A state with a stale ledger entry and an empty directory. -/
def stStale : St := ⟨[], some [(t1, u1)]⟩

end CvprScraper

namespace CvprScraper

/-! ### Association-list lemmas -/

theorem aGet_cons {α : Type} (p : Str × α) (m : List (Str × α)) (k : Str) :
    aGet (p :: m) k = if p.1 = k then some p.2 else aGet m k := rfl

theorem aGet_append {α : Type} (m1 m2 : List (Str × α)) (k : Str) :
    aGet (m1 ++ m2) k =
      match aGet m1 k with
      | some v => some v
      | none => aGet m2 k := by
  induction m1 with
  | nil => rfl
  | cons p m ih =>
    by_cases h : p.1 = k
    · simp [aGet, h]
    · simp [aGet, h, ih]

theorem aGet_mapSet {α : Type} (k : Str) (v : α) :
    ∀ (m : List (Str × α)) (k2 : Str),
      aGet (m.map (fun p => if p.1 = k then (k, v) else p)) k2 =
        if k2 = k then (if aHas m k then some v else none) else aGet m k2 := by
  intro m
  induction m with
  | nil => intro k2; simp [aGet, aHas]
  | cons p m ih =>
    intro k2
    by_cases hpk : p.1 = k
    · by_cases hk2 : k2 = k
      · subst hk2; simp [aGet, aHas, hpk]
      · have hk2s : ¬ k = k2 := fun h => hk2 (Eq.symm h)
        have hpk2 : ¬ p.1 = k2 := fun h => hk2s (Eq.trans (Eq.symm hpk) h)
        simp [aGet, aHas, hpk, hk2, hk2s, hpk2, ih]
    · by_cases hpk2 : p.1 = k2
      · have hk : ¬ k2 = k := fun h => hpk (Eq.trans hpk2 h)
        simp [aGet, aHas, hpk, hpk2, hk, ih]
      · simp [aGet, aHas, hpk, hpk2, ih]

theorem aGet_aSet {α : Type} (m : List (Str × α)) (k k2 : Str) (v : α) :
    aGet (aSet m k v) k2 = if k2 = k then some v else aGet m k2 := by
  unfold aSet
  by_cases h : aHas m k
  · simp only [h, if_true, aGet_mapSet]
  · simp only [h, Bool.false_eq_true, if_false, aGet_append]
    by_cases hk : k2 = k
    · subst hk
      have hnone : aGet m k2 = none := by
        unfold aHas at h
        cases hg : aGet m k2 with
        | none => rfl
        | some v2 => rw [hg] at h; simp at h
      simp [hnone, aGet]
    · cases hg : aGet m k2 with
      | none =>
        have hks : ¬ k = k2 := fun h2 => hk (Eq.symm h2)
        simp [aGet, hk, hks]
      | some v2 => simp [hk]

theorem aGet_aPop {α : Type} :
    ∀ (m : List (Str × α)) (k k2 : Str),
      aGet (aPop m k) k2 = if k2 = k then none else aGet m k2 := by
  intro m
  induction m with
  | nil => intro k k2; simp [aPop, aGet]
  | cons p m ih =>
    intro k k2
    by_cases hpk : p.1 = k
    · by_cases hk : k2 = k
      · simp [aPop, hpk, ih, hk]
      · have hpk2 : ¬ p.1 = k2 := fun h => hk (Eq.trans (Eq.symm h) hpk)
        have hks : ¬ k = k2 := fun h => hk (Eq.symm h)
        simp [aPop, aGet, hpk, ih, hk, hpk2, hks]
    · by_cases hpk2 : p.1 = k2
      · have hk : ¬ k2 = k := fun h => hpk (Eq.trans hpk2 h)
        simp [aPop, aGet, hpk, hpk2, hk]
      · simp [aPop, aGet, hpk, hpk2, ih]

theorem aHas_iff {α : Type} (m : List (Str × α)) (k : Str) :
    aHas m k = true ↔ ∃ v, aGet m k = some v := by
  unfold aHas
  cases h : aGet m k <;> simp

theorem mem_aPop {α : Type} :
    ∀ (m : List (Str × α)) (k : Str) (p : Str × α), p ∈ aPop m k → p ∈ m := by
  intro m
  induction m with
  | nil => intro k p h; simp [aPop] at h
  | cons q m ih =>
    intro k p h
    by_cases hq : q.1 = k
    · simp only [aPop, hq, if_true] at h
      exact List.mem_cons_of_mem q (ih k p h)
    · simp only [aPop, hq, if_false] at h
      rcases List.mem_cons.mp h with h1 | h2
      · exact h1 ▸ List.mem_cons_self q m
      · exact List.mem_cons_of_mem q (ih k p h2)

/-! ### `grab_file` lemmas -/

theorem grab_file_fst (resp : Resp) (path : Str) (fs : Fs) :
    (grab_file resp path fs).1 = grabOk resp := by
  cases ho : resp.outcome with
  | err p => cases p <;> simp [grab_file, grabOk, ho]
  | ok body =>
    simp only [grab_file, grabOk, ho, aGet_aSet, if_pos rfl, fileSize]
    by_cases h : is_pdf (some body) = true
    · by_cases hl : body.length < 1024
      · simp [h, hl, Nat.not_le.mpr hl]
      · simp [h, hl, Nat.le_of_not_lt hl]
    · have h2 : is_pdf (some body) = false := by
        cases hx : is_pdf (some body)
        · rfl
        · exact absurd hx h
      simp [h2]

theorem grab_file_other (resp : Resp) (path q : Str) (fs : Fs)
    (hq : ¬ q = path) : aGet (grab_file resp path fs).2 q = aGet fs q := by
  cases ho : resp.outcome with
  | err p =>
    cases p with
    | none => simp [grab_file, ho]
    | some part => simp [grab_file, ho, aGet_aSet, hq]
  | ok body =>
    simp only [grab_file, ho]
    split
    · simp [aGet_aSet, hq]
    · split <;> simp [aGet_aSet, hq]

theorem grab_file_success_file (resp : Resp) (path : Str) (fs : Fs)
    (h : (grab_file resp path fs).1 = true) :
    ∃ body, (resp.outcome = .ok body) ∧
      aGet (grab_file resp path fs).2 path = some body ∧
      is_pdf (some body) = true ∧ 1024 ≤ body.length := by
  rw [grab_file_fst] at h
  cases ho : resp.outcome with
  | err p => simp [grabOk, ho] at h
  | ok body =>
    simp only [grabOk, ho, Bool.and_eq_true, decide_eq_true_eq] at h
    refine ⟨body, rfl, ?_, h.1, h.2⟩
    simp only [grab_file, ho, aGet_aSet, if_pos rfl, fileSize]
    have h2 : ¬ body.length < 1024 := Nat.not_lt.mpr h.2
    simp [h.1, h2, aGet_aSet]

end CvprScraper

namespace CvprScraper

/-! ### Resolver lemmas (`find_pdf_url`) -/

theorem endsWithPdfCI_ne_nil (h : Str) (he : endsWithPdfCI h = true) :
    h.isEmpty = false := by
  cases h with
  | nil => simp [endsWithPdfCI, lowerStr] at he
  | cons c t => rfl

theorem loopA_eq_find (anchors : List Anchor) :
    loopA anchors = (anchors.find? matchesA).bind Anchor.href := by
  induction anchors with
  | nil => rfl
  | cons a rest ih =>
    by_cases hm : matchesA a = true
    · cases hh : a.href with
      | none => unfold matchesA at hm; rw [hh] at hm; exact absurd hm (by simp)
      | some h =>
        have hne : h.isEmpty = false := by
          unfold matchesA at hm; rw [hh] at hm
          exact endsWithPdfCI_ne_nil h hm
        simp [loopA, hm, hh, hne, List.find?_cons]
    · have hm2 : matchesA a = false := by
        cases hx : matchesA a
        · rfl
        · exact absurd hx hm
      simp [loopA, hm2, ih, List.find?_cons]

theorem loopB_eq_find (anchors : List Anchor) :
    loopB anchors =
      (anchors.find? (fun a => textIsPdf a && hrefTruthy a)).bind Anchor.href := by
  induction anchors with
  | nil => rfl
  | cons a rest ih =>
    by_cases ht : textIsPdf a = true
    · cases hh : a.href with
      | none =>
        simp [loopB, ht, hh, ih, List.find?_cons, hrefTruthy]
      | some h =>
        by_cases he : h.isEmpty
        · simp [loopB, ht, hh, he, ih, List.find?_cons, hrefTruthy]
        · simp only [Bool.not_eq_true] at he
          simp [loopB, ht, hh, he, List.find?_cons, hrefTruthy]
    · rw [Bool.not_eq_true] at ht
      simp [loopB, ht, ih, List.find?_cons]

/-- C5 (amended): over a successfully fetched detail page the resolver
returns `urljoin` of the href of the first anchor whose href ends in
`.pdf` case-insensitively; only when no anchor has such an href does it
return `urljoin` of the href of the first anchor whose stripped,
lowercased text is `pdf` *and* that carries a non-empty href; it returns
`none` exactly when the request errors or neither search finds an anchor.
(The original claim's rule (b) ignored the href requirement.) -/
theorem find_pdf_url_characterization :
    (∀ (uj : Str → Str → Str) (u : Str), find_pdf_url uj u none = none) ∧
    (∀ (uj : Str → Str → Str) (u : Str) (anchors : List Anchor),
      find_pdf_url uj u (some anchors) =
        match anchors.find? matchesA with
        | some a => a.href.map (uj u)
        | none =>
          match anchors.find? (fun a => textIsPdf a && hrefTruthy a) with
          | some a => a.href.map (uj u)
          | none => none) := by
  constructor
  · intro uj u; rfl
  · intro uj u anchors
    change (match loopA anchors with
      | some h => some (uj u h)
      | none =>
        match loopB anchors with
        | some h => some (uj u h)
        | none => none) = _
    rw [loopA_eq_find, loopB_eq_find]
    cases hA : anchors.find? matchesA with
    | some a =>
      cases hh : a.href with
      | none =>
        have := List.find?_some hA
        unfold matchesA at this
        rw [hh] at this
        exact absurd this (by simp)
      | some h => simp [hh, Option.bind]
    | none =>
      cases hB : anchors.find? (fun a => textIsPdf a && hrefTruthy a) with
      | some a =>
        cases hh : a.href with
        | none =>
          have := List.find?_some hB
          unfold hrefTruthy at this
          rw [hh] at this
          simp at this
        | some h => simp [hh, Option.bind]
      | none => simp [Option.bind]

/-- C5 counterexample: a detail page whose only anchor has visible text
`pdf` but no href.  Rule (b) of the claim matches this anchor, so the
claim requires the resolver to return it, yet the code returns
not-found. -/
theorem find_pdf_url_text_only_anchor :
    find_pdf_url (fun _ h => h) u1 (some [⟨none, ['p', 'd', 'f']⟩]) = none ∧
    textIsPdf ⟨none, ['p', 'd', 'f']⟩ = true := by
  constructor
  · rfl
  · decide

/-! ### Body and validator lemmas -/

theorem is_pdf_magic (tail : Bytes) : is_pdf (some (pdfMagic ++ tail)) = true := by
  simp [is_pdf, pdfMagic]

theorem bodyBoundary_length : bodyBoundary.length = 1024 := by
  rw [bodyBoundary, List.length_append, List.length_replicate]
  decide

theorem bodyValid_length : bodyValid.length = 2000 := by
  rw [bodyValid, List.length_append, List.length_replicate]
  decide

theorem bodySmall_length : bodySmall.length = 500 := by
  rw [bodySmall, List.length_append, List.length_replicate]
  decide

theorem skipValid_eq (fs : Fs) (p : Str) (body : Bytes)
    (h : aGet fs p = some body) :
    skipValid fs p = (decide (1024 < body.length) && is_pdf (some body)) := by
  simp [skipValid, aHas, h, fileSize]

theorem skipValid_absent (fs : Fs) (p : Str) (h : aGet fs p = none) :
    skipValid fs p = false := by
  simp [skipValid, aHas, h]

/-- C4 (amended): `is_pdf` alone checks only the magic bytes and maps any
I/O error to invalid; the size threshold lives at the call sites, and the
two call sites disagree on the boundary: the skip check (also used by the
standalone checker) accepts exactly presence ∧ magic ∧ size > 1024, while
`grab_file` accepts a fresh download exactly when magic ∧ size ≥ 1024, so
a 1024-byte download is accepted there.  The three concrete examples of
the claim hold under both criteria. -/
theorem validator_criteria :
    (is_pdf none = false) ∧
    (∀ (resp : Resp) (path : Str) (fs : Fs) (body : Bytes),
      resp.outcome = .ok body →
      ((grab_file resp path fs).1 = true ↔
        (is_pdf (some body) = true ∧ 1024 ≤ body.length))) ∧
    (∀ (fs : Fs) (p : Str) (body : Bytes), aGet fs p = some body →
      (skipValid fs p = true ↔
        (is_pdf (some body) = true ∧ 1024 < body.length))) ∧
    (∀ p : Str, skipValid [(p, bodyValid)] p = true ∧
      (grab_file ⟨[], 0, .ok bodyValid⟩ p []).1 = true) ∧
    (∀ p : Str, skipValid [(p, bodySmall)] p = false ∧
      (grab_file ⟨[], 0, .ok bodySmall⟩ p []).1 = false) ∧
    (∀ p : Str, skipValid [(p, bodyWrongMagic)] p = false ∧
      (grab_file ⟨[], 0, .ok bodyWrongMagic⟩ p []).1 = false) := by
  have hgrab : ∀ (resp : Resp) (path : Str) (fs : Fs) (body : Bytes),
      resp.outcome = .ok body →
      ((grab_file resp path fs).1 = true ↔
        (is_pdf (some body) = true ∧ 1024 ≤ body.length)) := by
    intro resp path fs body ho
    rw [grab_file_fst]
    simp [grabOk, ho]
  have hwrong : is_pdf (some bodyWrongMagic) = false := by
    show decide (List.take 4 (List.replicate 2000 0) = pdfMagic) = false
    rw [List.take_replicate]
    decide
  have hvalid : is_pdf (some bodyValid) = true := is_pdf_magic _
  have hsm : is_pdf (some bodySmall) = true := is_pdf_magic _
  refine ⟨rfl, hgrab, ?_, ?_, ?_, ?_⟩
  · intro fs p body h
    rw [skipValid_eq fs p body h]
    constructor
    · intro hb
      simp only [Bool.and_eq_true, decide_eq_true_eq] at hb
      exact ⟨hb.2, hb.1⟩
    · intro hb
      simp [hb.1, hb.2]
  · intro p
    constructor
    · rw [skipValid_eq [(p, bodyValid)] p bodyValid (by simp [aGet])]
      rw [bodyValid_length, hvalid]
      decide
    · rw [hgrab _ p [] bodyValid rfl]
      refine ⟨hvalid, by rw [bodyValid_length]; omega⟩
  · intro p
    constructor
    · rw [skipValid_eq [(p, bodySmall)] p bodySmall (by simp [aGet])]
      rw [bodySmall_length]
      decide
    · rw [Bool.eq_false_iff]
      intro hc
      rw [hgrab _ p [] bodySmall rfl] at hc
      rw [bodySmall_length] at hc
      omega
  · intro p
    constructor
    · rw [skipValid_eq [(p, bodyWrongMagic)] p bodyWrongMagic (by simp [aGet])]
      simp [hwrong]
    · rw [Bool.eq_false_iff]
      intro hc
      rw [hgrab _ p [] bodyWrongMagic rfl] at hc
      rw [hwrong] at hc
      simp at hc

/-- C4 counterexample: a complete download of exactly 1024 bytes with the
magic header.  `grab_file` accepts it, yet the criterion of the claim
(size strictly above 1024, as applied by the skip check) rejects the very
file just written — the two call sites do not apply the same criterion. -/
theorem grab_accepts_boundary_skip_rejects :
    (grab_file ⟨[], 1024, .ok bodyBoundary⟩ ['p'] []).1 = true ∧
    skipValid (grab_file ⟨[], 1024, .ok bodyBoundary⟩ ['p'] []).2 ['p'] = false := by
  have hpdf : is_pdf (some bodyBoundary) = true := is_pdf_magic _
  have hsucc : (grab_file ⟨[], 1024, .ok bodyBoundary⟩ ['p'] []).1 = true := by
    rw [grab_file_fst]
    simp [grabOk, hpdf, bodyBoundary_length]
  refine ⟨hsucc, ?_⟩
  obtain ⟨body, hbo, hget, _, _⟩ :=
    grab_file_success_file ⟨[], 1024, .ok bodyBoundary⟩ ['p'] [] hsucc
  have hbody : bodyBoundary = body := by
    simpa using hbo
  subst hbody
  rw [skipValid_eq _ _ _ hget]
  simp [bodyBoundary_length]

/-- C10: the outcome of one download attempt — both the success flag and
the resulting directory — is unchanged under any change of the
`Content-Type` header (and of the declared content length): only the body
decides.  In the source a non-PDF content type merely prints a warning. -/
theorem grab_file_ignores_content_type :
    ∀ (ct ct2 : Str) (n n2 : Nat) (o : FetchOutcome) (path : Str) (fs : Fs),
      grab_file ⟨ct, n, o⟩ path fs = grab_file ⟨ct2, n2, o⟩ path fs := by
  intro ct ct2 n n2 o path fs
  cases o with
  | err p => cases p <;> rfl
  | ok body => rfl

/-! ### Retry-loop lemmas (`tryDownload`) -/

theorem tryDownload_attempts_le (env : RunEnv) (url path : Str) :
    ∀ (fuel a : Nat) (fs : Fs),
      (tryDownload env url path a fuel fs).attempts ≤ fuel := by
  intro fuel
  induction fuel with
  | zero => intro a fs; simp [tryDownload]
  | succ f ih =>
    intro a fs
    rcases hg : grab_file (env.fetch url a) path fs with ⟨b, fs2⟩
    cases b
    · simp only [tryDownload, hg]
      exact Nat.succ_le_succ (ih (a + 1) _)
    · simp only [tryDownload, hg]
      exact Nat.succ_le_succ (Nat.zero_le f)

theorem tryDownload_sleeps_pos (env : RunEnv) (url path : Str) :
    ∀ (fuel a : Nat) (fs : Fs), a ≠ 0 →
      (tryDownload env url path a fuel fs).sleeps =
        List.replicate (tryDownload env url path a fuel fs).attempts 2 := by
  intro fuel
  induction fuel with
  | zero => intro a fs ha; simp [tryDownload]
  | succ f ih =>
    intro a fs ha
    rcases hg : grab_file (env.fetch url a) path fs with ⟨b, fs2⟩
    cases b
    · simp only [tryDownload, hg, ha, if_false]
      rw [ih (a + 1) _ (Nat.succ_ne_zero a)]
      rfl
    · simp only [tryDownload, hg, ha, if_false]
      rfl

theorem tryDownload_sleeps_zero (env : RunEnv) (url path : Str)
    (fuel : Nat) (fs : Fs) :
    (tryDownload env url path 0 fuel fs).sleeps =
      List.replicate ((tryDownload env url path 0 fuel fs).attempts - 1) 2 := by
  cases fuel with
  | zero => simp [tryDownload]
  | succ f =>
    rcases hg : grab_file (env.fetch url 0) path fs with ⟨b, fs2⟩
    cases b
    · simp only [tryDownload, hg, if_pos rfl]
      rw [tryDownload_sleeps_pos env url path f 1 _ (Nat.one_ne_zero)]
      simp
    · simp only [tryDownload, hg, if_pos rfl]
      rfl

theorem tryDownload_fail_attempts (env : RunEnv) (url path : Str) :
    ∀ (fuel a : Nat) (fs : Fs),
      (tryDownload env url path a fuel fs).success = false →
      (tryDownload env url path a fuel fs).attempts = fuel := by
  intro fuel
  induction fuel with
  | zero => intro a fs _; simp [tryDownload]
  | succ f ih =>
    intro a fs hfail
    rcases hg : grab_file (env.fetch url a) path fs with ⟨b, fs2⟩
    cases b
    · simp only [tryDownload, hg] at hfail ⊢
      rw [ih (a + 1) _ hfail]
    · simp [tryDownload, hg] at hfail

theorem tryDownload_fail_absent (env : RunEnv) (url path : Str) :
    ∀ (fuel a : Nat) (fs : Fs),
      (tryDownload env url path a (fuel + 1) fs).success = false →
      aGet (tryDownload env url path a (fuel + 1) fs).fs path = none := by
  intro fuel
  induction fuel with
  | zero =>
    intro a fs hfail
    rcases hg : grab_file (env.fetch url a) path fs with ⟨b, fs2⟩
    cases b
    · simp only [tryDownload, hg]
      by_cases hh : aHas fs2 path = true
      · simp [hh, aGet_aPop]
      · have : aGet fs2 path = none := by
          unfold aHas at hh
          cases hx : aGet fs2 path
          · rfl
          · rw [hx] at hh; simp at hh
        simp [hh, this]
    · simp [tryDownload, hg] at hfail
  | succ f ih =>
    intro a fs hfail
    rcases hg : grab_file (env.fetch url a) path fs with ⟨b, fs2⟩
    cases b
    · simp only [tryDownload, hg] at hfail ⊢
      exact ih (a + 1) _ hfail
    · simp [tryDownload, hg] at hfail

theorem tryDownload_other (env : RunEnv) (url path q : Str) (hq : ¬ q = path) :
    ∀ (fuel a : Nat) (fs : Fs),
      aGet (tryDownload env url path a fuel fs).fs q = aGet fs q := by
  intro fuel
  induction fuel with
  | zero => intro a fs; simp [tryDownload]
  | succ f ih =>
    intro a fs
    rcases hg : grab_file (env.fetch url a) path fs with ⟨b, fs2⟩
    have h2 : aGet fs2 q = aGet fs q := by
      have := grab_file_other (env.fetch url a) path q fs hq
      rw [hg] at this
      exact this
    cases b
    · simp only [tryDownload, hg]
      rw [ih (a + 1)]
      by_cases hh : aHas fs2 path = true
      · simp [hh, aGet_aPop, hq, h2]
      · simp [hh, h2]
    · simp only [tryDownload, hg]
      exact h2

theorem tryDownload_success_eq (env : RunEnv) (url path : Str) :
    ∀ (fuel a : Nat) (fs : Fs),
      (tryDownload env url path a fuel fs).success = trySucc env url a fuel := by
  intro fuel
  induction fuel with
  | zero => intro a fs; simp [tryDownload, trySucc]
  | succ f ih =>
    intro a fs
    rcases hg : grab_file (env.fetch url a) path fs with ⟨b, fs2⟩
    have hb : b = grabOk (env.fetch url a) := by
      have := grab_file_fst (env.fetch url a) path fs
      rw [hg] at this
      exact this
    cases b
    · simp only [tryDownload, hg, trySucc, ← hb]
      rw [ih (a + 1)]
      simp
    · simp only [tryDownload, hg, trySucc, ← hb]
      simp

theorem tryDownload_success_file (env : RunEnv) (url path : Str) :
    ∀ (fuel a : Nat) (fs : Fs),
      (tryDownload env url path a fuel fs).success = true →
      ∃ body, aGet (tryDownload env url path a fuel fs).fs path = some body ∧
        is_pdf (some body) = true ∧ 1024 ≤ body.length ∧
        ∃ n, (env.fetch url n).outcome = .ok body := by
  intro fuel
  induction fuel with
  | zero => intro a fs h; simp [tryDownload] at h
  | succ f ih =>
    intro a fs h
    rcases hg : grab_file (env.fetch url a) path fs with ⟨b, fs2⟩
    cases b
    · simp only [tryDownload, hg] at h ⊢
      exact ih (a + 1) _ h
    · simp only [tryDownload, hg]
      obtain ⟨body, hbo, hget, hpdf, hlen⟩ :=
        grab_file_success_file (env.fetch url a) path fs (by rw [hg])
      rw [hg] at hget
      exact ⟨body, hget, hpdf, hlen, a, hbo⟩

theorem unlink_absent (fs : Fs) (p : Str) :
    aGet (if aHas fs p then aPop fs p else fs) p = none := by
  by_cases h : aHas fs p = true
  · simp [h, aGet_aPop]
  · have h2 : aGet fs p = none := by
      unfold aHas at h
      cases hx : aGet fs p
      · rfl
      · rw [hx] at h; simp at h
    simp [h, h2]

/-- C6: a failed item is attempted at most `max_retries` times (exactly
`max_retries` when every attempt fails), a fixed 2-second sleep precedes
every attempt except the first (so `attempts - 1` sleeps in all), after
every failed attempt the unlink step (`if fname.exists(): fname.unlink()`)
leaves the destination absent before the next attempt, and whenever the
loop — entered at any attempt index with at least one attempt of fuel —
ends in failure, the destination file is absent before the run moves to
the next item. -/
theorem retry_loop_discipline (env : RunEnv) (url path : Str) (m : Nat)
    (fs : Fs) :
    (tryDownload env url path 0 m fs).attempts ≤ m ∧
    ((tryDownload env url path 0 m fs).success = false →
      (tryDownload env url path 0 m fs).attempts = m) ∧
    (tryDownload env url path 0 m fs).sleeps =
      List.replicate ((tryDownload env url path 0 m fs).attempts - 1) 2 ∧
    (∀ (a : Nat) (fs2 : Fs),
      (grab_file (env.fetch url a) path fs2).1 = false →
      aGet (if aHas (grab_file (env.fetch url a) path fs2).2 path
            then aPop (grab_file (env.fetch url a) path fs2).2 path
            else (grab_file (env.fetch url a) path fs2).2) path = none) ∧
    (∀ (a f : Nat) (fs2 : Fs),
      (tryDownload env url path a (f + 1) fs2).success = false →
      aGet (tryDownload env url path a (f + 1) fs2).fs path = none) :=
  ⟨tryDownload_attempts_le env url path m 0 fs,
   tryDownload_fail_attempts env url path m 0 fs,
   tryDownload_sleeps_zero env url path m fs,
   fun a fs2 _ => unlink_absent (grab_file (env.fetch url a) path fs2).2 path,
   fun a f fs2 h => tryDownload_fail_absent env url path f a fs2 h⟩

/-- Witness for C6 at a concrete input: three failing attempts leave the
destination absent after exactly 3 attempts and 2 sleeps of 2 seconds. -/
theorem retry_loop_discipline_witness :
    (tryDownload failFetchEnv u1 ['p'] 0 3 []).attempts ≤ 3 ∧
    aGet (tryDownload failFetchEnv u1 ['p'] 0 (2 + 1) []).fs ['p'] = none :=
  ⟨(retry_loop_discipline failFetchEnv u1 ['p'] 3 []).1,
   (retry_loop_discipline failFetchEnv u1 ['p'] 3 []).2.2.2.2 0 2 [] rfl⟩

/-- C7: when the run is not in effective retry mode (retry flag off, or
the loaded ledger empty) and the GET of the index page fails, the whole
run aborts: the returned durable state is exactly the input state — no
file is written or deleted and the ledger file is untouched — and no item
is processed (the loop state is `none`). -/
theorem index_failure_aborts (env : RunEnv) (r : Bool) (m : Nat) (st : St)
    (hmode : (r && !(load_log st.ledger).isEmpty) = false)
    (hidx : env.index = none) :
    run env r m st = (st, none) := by
  simp [run, hmode, hidx]

/-- Witness for C7 at a concrete input: failing index, normal mode. -/
theorem index_failure_aborts_witness :
    run deadIndexEnv false 3 st0 = (st0, none) :=
  index_failure_aborts deadIndexEnv false 3 st0 rfl rfl

/-! ### Sanitizer lemmas (`fix_name`) -/

theorem bool_not_true {b : Bool} (h : ¬ b = true) : b = false := by
  cases hx : b
  · rfl
  · exact absurd hx h

theorem collapseWS_mem :
    ∀ (l : Str) (b : Bool) (c : Char), c ∈ collapseWS b l → c = ' ' ∨ c ∈ l := by
  intro l
  induction l with
  | nil => intro b c h; simp [collapseWS] at h
  | cons x rest ih =>
    intro b c h
    by_cases hs : isSpaceCh x = true
    · cases b
      · simp only [collapseWS, hs, if_true, Bool.false_eq_true, if_false] at h
        rcases List.mem_cons.mp h with h1 | h2
        · exact Or.inl h1
        · rcases ih true c h2 with h3 | h4
          · exact Or.inl h3
          · exact Or.inr (List.mem_cons_of_mem x h4)
      · simp only [collapseWS, hs, if_true] at h
        rcases ih true c h with h3 | h4
        · exact Or.inl h3
        · exact Or.inr (List.mem_cons_of_mem x h4)
    · have hs2 : isSpaceCh x = false := bool_not_true hs
      simp only [collapseWS, hs2, Bool.false_eq_true, if_false] at h
      rcases List.mem_cons.mp h with h1 | h2
      · exact Or.inr (h1 ▸ List.mem_cons_self x rest)
      · rcases ih false c h2 with h3 | h4
        · exact Or.inl h3
        · exact Or.inr (List.mem_cons_of_mem x h4)

theorem collapseWS_true_head :
    ∀ (l : Str) (c : Char),
      (collapseWS true l).head? = some c → isSpaceCh c = false := by
  intro l
  induction l with
  | nil => intro c h; simp [collapseWS] at h
  | cons x rest ih =>
    intro c h
    by_cases hs : isSpaceCh x = true
    · simp only [collapseWS, hs, if_true] at h
      exact ih c h
    · have hs2 : isSpaceCh x = false := bool_not_true hs
      simp only [collapseWS, hs2, Bool.false_eq_true, if_false,
        List.head?_cons, Option.some.injEq] at h
      rw [← h]
      exact hs2

theorem noAdjSpaces_symm (a b : Char) (h : noAdjSpaces a b) : noAdjSpaces b a :=
  fun hc => h ⟨hc.2, hc.1⟩

theorem collapseWS_chain :
    ∀ (l : Str) (b : Bool), List.Chain' noAdjSpaces (collapseWS b l) := by
  intro l
  induction l with
  | nil => intro b; simp [collapseWS]
  | cons x rest ih =>
    intro b
    by_cases hs : isSpaceCh x = true
    · cases b
      · simp only [collapseWS, hs, if_true, Bool.false_eq_true, if_false]
        rw [List.chain'_cons']
        refine ⟨?_, ih true⟩
        intro y hy hcontra
        have hyns := collapseWS_true_head rest y hy
        rw [hyns] at hcontra
        exact absurd hcontra.2 (by simp)
      · simp only [collapseWS, hs, if_true]
        exact ih true
    · have hs2 : isSpaceCh x = false := bool_not_true hs
      simp only [collapseWS, hs2, Bool.false_eq_true, if_false]
      rw [List.chain'_cons']
      refine ⟨?_, ih false⟩
      intro y hy hcontra
      rw [hs2] at hcontra
      exact absurd hcontra.1 (by simp)

theorem mem_stripStr (l : Str) (c : Char) (h : c ∈ stripStr l) : c ∈ l := by
  unfold stripStr at h
  rw [List.mem_reverse] at h
  have h2 := (List.dropWhile_suffix isSpaceCh).subset h
  rw [List.mem_reverse] at h2
  exact (List.dropWhile_suffix isSpaceCh).subset h2

theorem stripStr_chain (l : Str) (h : List.Chain' noAdjSpaces l) :
    List.Chain' noAdjSpaces (stripStr l) := by
  unfold stripStr
  have h1 : List.Chain' noAdjSpaces (l.dropWhile isSpaceCh) :=
    h.suffix (List.dropWhile_suffix isSpaceCh)
  have h2 : List.Chain' noAdjSpaces (l.dropWhile isSpaceCh).reverse :=
    List.chain'_reverse.mpr (h1.imp (fun a b hr => noAdjSpaces_symm a b hr))
  have h3 : List.Chain' noAdjSpaces
      ((l.dropWhile isSpaceCh).reverse.dropWhile isSpaceCh) :=
    h2.suffix (List.dropWhile_suffix isSpaceCh)
  exact List.chain'_reverse.mpr (h3.imp (fun a b hr => noAdjSpaces_symm a b hr))

theorem head?_of_isPre :
    ∀ (l1 l2 : Str) (c : Char), l1 <+: l2 → l1.head? = some c →
      l2.head? = some c := by
  intro l1 l2 c hp hh
  obtain ⟨t, ht⟩ := hp
  cases l1 with
  | nil => simp at hh
  | cons a l =>
    simp only [List.head?_cons, Option.some.injEq] at hh
    rw [← ht, List.cons_append, List.head?_cons, hh]

theorem head?_dropWhile_not_space :
    ∀ (l : Str) (c : Char),
      ((l.dropWhile isSpaceCh).head? = some c) → isSpaceCh c = false := by
  intro l
  induction l with
  | nil => intro c h; simp at h
  | cons x rest ih =>
    intro c h
    rw [List.dropWhile_cons] at h
    by_cases hs : isSpaceCh x = true
    · rw [if_pos hs] at h
      exact ih c h
    · have hs2 : isSpaceCh x = false := bool_not_true hs
      rw [hs2] at h
      simp only [Bool.false_eq_true, if_false, List.head?_cons,
        Option.some.injEq] at h
      rw [← h]
      exact hs2

theorem stripStr_head (l : Str) (c : Char)
    (h : (stripStr l).head? = some c) : isSpaceCh c = false := by
  unfold stripStr at h
  have hsuf : ((l.dropWhile isSpaceCh).reverse.dropWhile isSpaceCh) <:+
      (l.dropWhile isSpaceCh).reverse := List.dropWhile_suffix isSpaceCh
  have hpre : ((l.dropWhile isSpaceCh).reverse.dropWhile isSpaceCh).reverse <+:
      l.dropWhile isSpaceCh := by
    rw [← List.reverse_suffix, List.reverse_reverse]
    exact hsuf
  have h2 := head?_of_isPre _ _ c hpre h
  exact head?_dropWhile_not_space l c h2

/-- C9: for every title, the sanitizer's output has length at most 200,
contains none of the illegal path characters (in particular no `:`, `/`
or `*`), never has two adjacent whitespace characters (runs are
collapsed), and does not start with whitespace (leading whitespace is
stripped; the code strips trailing whitespace too, then truncates, so the
final character may be a space only as a result of the cut). -/
theorem fix_name_sanitizes (s : Str) :
    (fix_name s).length ≤ 200 ∧
    (∀ c ∈ fix_name s, illegalCh c = false) ∧
    List.Chain' noAdjSpaces (fix_name s) ∧
    (∀ c, (fix_name s).head? = some c → isSpaceCh c = false) := by
  refine ⟨?_, ?_, ?_, ?_⟩
  · unfold fix_name
    exact List.length_take_le 200 _
  · intro c hc
    unfold fix_name at hc
    have h1 := List.take_subset 200 _ hc
    have h2 := mem_stripStr _ c h1
    rcases collapseWS_mem _ false c h2 with h3 | h4
    · rw [h3]; decide
    · have := List.mem_filter.mp h4
      have h5 := this.2
      cases hx : illegalCh c
      · rfl
      · rw [hx] at h5; simp at h5
  · unfold fix_name
    exact (stripStr_chain _ (collapseWS_chain _ false)).take 200
  · intro c hc
    unfold fix_name at hc
    rw [List.head?_take] at hc
    rw [if_neg (by decide)] at hc
    exact stripStr_head _ c hc

/-! ### Retry mode with an empty ledger (C2) -/

theorem processItem_empty_failed (env : RunEnv) (m : Nat) (ls : LoopSt)
    (item : Str × Str) (h : ls.failed = []) :
    processItem env true m ls item = processItem env false m ls item := by
  unfold processItem
  rw [h]
  rfl

theorem downloadStep_failed_nil (env : RunEnv) (m : Nat) (ls : LoopSt)
    (t u : Str) (h : ls.failed = []) :
    (downloadStep env m ls t u).failed = [] := by
  simp only [downloadStep]
  split
  · rw [h]; rfl
  · exact h

theorem processItem_failed_nil (env : RunEnv) (r : Bool) (m : Nat)
    (ls : LoopSt) (item : Str × Str) (h : ls.failed = []) :
    (processItem env r m ls item).failed = [] := by
  unfold processItem
  by_cases hsv : skipValid ls.fs (fnameOf item.1) = true
  · rw [if_pos hsv, h]
    rfl
  · rw [if_neg hsv]
    cases hr : (if r then aGet ls.failed item.1 else none) with
    | some u => exact downloadStep_failed_nil env m ls item.1 u h
    | none =>
      cases hf : find_pdf_url env.urljoin item.2 (env.detail item.2) with
      | none => exact h
      | some u => exact downloadStep_failed_nil env m ls item.1 u h

theorem foldl_empty_failed (env : RunEnv) (m : Nat) :
    ∀ (todo : List (Str × Str)) (ls : LoopSt), ls.failed = [] →
      List.foldl (processItem env true m) ls todo =
        List.foldl (processItem env false m) ls todo ∧
      (List.foldl (processItem env false m) ls todo).failed = [] := by
  intro todo
  induction todo with
  | nil => intro ls h; exact ⟨rfl, h⟩
  | cons i rest ih =>
    intro ls h
    have h1 := processItem_empty_failed env m ls i h
    have h2 := processItem_failed_nil env false m ls i h
    simp only [List.foldl_cons, h1]
    exact ih (processItem env false m ls i) h2

/-- C2 (amended): invoking retry mode with an absent or empty ledger does
not degrade to a no-op — it falls back to a full normal run: the index is
fetched and every item is processed exactly as without the flag, with an
identical resulting state. -/
theorem run_items_flag (env : RunEnv) (m : Nat) (fs0 : Fs)
    (items : List (Str × Str)) :
    run_items env true m fs0 [] items = run_items env false m fs0 [] items := by
  simp only [run_items]
  obtain ⟨heq, hnil⟩ := foldl_empty_failed env m items ⟨fs0, [], [], 0, 0⟩ rfl
  rw [heq, hnil]
  simp

theorem retry_empty_equals_normal (env : RunEnv) (m : Nat) (st : St)
    (h : load_log st.ledger = []) :
    run env true m st = run env false m st := by
  simp only [run, h, List.isEmpty_nil, Bool.not_true, Bool.and_false,
    Bool.false_and, Bool.false_eq_true, if_false]
  cases hi : env.index with
  | none => rfl
  | some items =>
    exact congrArg (fun p => (p.1, some p.2)) (run_items_flag env m st.fs items)

/-- Witness for the amended C2 at a concrete input: with no ledger file,
the retry flag changes nothing about the run. -/
theorem retry_empty_equals_normal_witness :
    run noLinkEnv true 3 st0 = run noLinkEnv false 3 st0 :=
  retry_empty_equals_normal noLinkEnv 3 st0 rfl

/-- C2 counterexample: retry mode with an absent ledger on an environment
whose single item fails resolution.  The claim demands no file changes,
but the run fetches the index, processes the item and writes a ledger
file where there was none. -/
theorem retry_empty_not_noop :
    (runSt noLinkEnv true 3 st0).ledger = some [(t1, u1)] ∧
    st0.ledger = none := by
  constructor
  · rfl
  · rfl

/-! ### End-of-run ledger persistence (C3) -/

theorem aSet_ne_nil {α : Type} (m : List (Str × α)) (k : Str) (v : α) :
    ¬ aSet m k v = [] := by
  unfold aSet
  by_cases h : aHas m k = true
  · rw [if_pos h]
    intro hc
    rw [List.map_eq_nil_iff] at hc
    subst hc
    simp [aHas, aGet] at h
  · rw [if_neg h]
    simp

theorem aUpdate_nil {α : Type} :
    ∀ (m2 m : List (Str × α)), aUpdate m m2 = [] → m = [] ∧ m2 = [] := by
  intro m2
  induction m2 with
  | nil => intro m h; exact ⟨h, rfl⟩
  | cons p m2 ih =>
    intro m h
    have h2 : aUpdate (aSet m p.1 p.2) m2 = [] := h
    exact absurd (ih (aSet m p.1 p.2) h2).1 (aSet_ne_nil m p.1 p.2)

/-- C3 (amended): at the end of a completed run the ledger file is written
with exactly the final in-memory mapping `failed.update(new_failed)` if
and only if `new_failed` is non-empty or the run was in retry mode with a
non-empty remaining `failed`; otherwise the file is deleted or left
absent.  An empty final mapping always leaves the file absent, but a
non-empty final mapping is *not* always persisted: in normal mode, stale
entries with no new failure are silently dropped with the file. -/
theorem run_items_ledger (env : RunEnv) (r : Bool) (m : Nat) (fs0 : Fs)
    (f0 : Ledger) (todo : List (Str × Str)) :
    (run_items env r m fs0 f0 todo).1.ledger =
      (if (!(run_items env r m fs0 f0 todo).2.newFailed.isEmpty ||
           (r && !(run_items env r m fs0 f0 todo).2.failed.isEmpty)) = true
       then some (aUpdate (run_items env r m fs0 f0 todo).2.failed
                          (run_items env r m fs0 f0 todo).2.newFailed)
       else none) := by
  simp only [run_items, save_log]

theorem run_fst_ledger (env : RunEnv) (r : Bool) (m : Nat) (st : St)
    (ls : LoopSt) (h : (run env r m st).2 = some ls) :
    (run env r m st).1.ledger =
      (if (!ls.newFailed.isEmpty || (r && !ls.failed.isEmpty)) = true
       then some (aUpdate ls.failed ls.newFailed) else none) := by
  by_cases hb : (r && !(load_log st.ledger).isEmpty) = true
  · have hrun : run env r m st =
        ((run_items env r m st.fs (load_log st.ledger) (load_log st.ledger)).1,
         some (run_items env r m st.fs (load_log st.ledger)
           (load_log st.ledger)).2) := by
      simp only [run]
      rw [if_pos hb]
    rw [hrun] at h ⊢
    simp only [Option.some.injEq] at h
    rw [run_items_ledger, h]
  · cases hi : env.index with
    | none =>
      have hrun : run env r m st = (st, none) := by
        simp only [run]
        rw [if_neg hb, hi]
      rw [hrun] at h
      simp at h
    | some items =>
      have hrun : run env r m st =
          ((run_items env r m st.fs (load_log st.ledger) items).1,
           some (run_items env r m st.fs (load_log st.ledger) items).2) := by
        simp only [run]
        rw [if_neg hb, hi]
      rw [hrun] at h ⊢
      simp only [Option.some.injEq] at h
      rw [run_items_ledger, h]

theorem ledger_save_condition (env : RunEnv) (r : Bool) (m : Nat) (st : St)
    (ls : LoopSt) (h : (run env r m st).2 = some ls) :
    ((!ls.newFailed.isEmpty || (r && !ls.failed.isEmpty)) = true →
      (run env r m st).1.ledger = some (aUpdate ls.failed ls.newFailed)) ∧
    ((!ls.newFailed.isEmpty || (r && !ls.failed.isEmpty)) = false →
      (run env r m st).1.ledger = none) ∧
    (aUpdate ls.failed ls.newFailed = [] →
      (run env r m st).1.ledger = none) := by
  have hbase := run_fst_ledger env r m st ls h
  refine ⟨?_, ?_, ?_⟩
  · intro hc
    rw [hbase, if_pos hc]
  · intro hc
    rw [hbase, if_neg (by rw [hc]; simp)]
  · intro hnil
    obtain ⟨h1, h2⟩ := aUpdate_nil ls.newFailed ls.failed hnil
    rw [hbase, if_neg (by rw [h1, h2]; simp)]

/-- Witness for the amended C3 at a concrete input: one failing item, the
condition holds and exactly the final mapping is persisted. -/
theorem ledger_save_condition_witness :
    (run noLinkEnv false 3 st0).1.ledger =
      some (aUpdate ([] : Ledger) [(t1, u1)]) :=
  (ledger_save_condition noLinkEnv false 3 st0 ⟨[], [], [(t1, u1)], 0, 1⟩
    rfl).1 rfl

/-- C3 counterexample: a normal-mode run over an empty index with a stale
ledger entry.  The end-of-run in-memory mapping is non-empty (it still
holds the stale entry), yet the run deletes the ledger file instead of
persisting the mapping. -/
theorem stale_ledger_dropped :
    (run emptyIndexEnv false 3 stStale).1.ledger = none ∧
    (run emptyIndexEnv false 3 stStale).2 = some ⟨[], [(t1, u1)], [], 0, 0⟩ ∧
    ¬ aUpdate [(t1, u1)] ([] : Ledger) = [] := by
  refine ⟨rfl, rfl, by simp [aUpdate]⟩

/-- Witness for C4's amended theorem at a concrete input. -/
theorem validator_criteria_witness :
    skipValid [(['p'], bodyValid)] ['p'] = true :=
  (validator_criteria.2.2.2.1 ['p']).1

/-- Witness for C5's amended theorem at a concrete input. -/
theorem find_pdf_url_characterization_witness :
    find_pdf_url (fun _ h => h) u1 none = none :=
  find_pdf_url_characterization.1 (fun _ h => h) u1

/-- Witness for C9 at a concrete input. -/
theorem fix_name_sanitizes_witness :
    (fix_name t1).length ≤ 200 :=
  (fix_name_sanitizes t1).1

/-- Witness for C10 at a concrete input. -/
theorem grab_file_ignores_content_type_witness :
    grab_file ⟨['a'], 7, .ok bodyValid⟩ ['p'] [] =
      grab_file ⟨['b'], 9, .ok bodyValid⟩ ['p'] [] :=
  grab_file_ignores_content_type ['a'] ['b'] 7 9 (.ok bodyValid) ['p'] []

/-! ### Per-item lemmas for the run-level claims (C1, C8) -/

theorem aGet_mem {α : Type} :
    ∀ (m : List (Str × α)) (k : Str) (v : α), aGet m k = some v → (k, v) ∈ m := by
  intro m
  induction m with
  | nil => intro k v h; simp [aGet] at h
  | cons p m ih =>
    intro k v h
    by_cases hp : p.1 = k
    · simp only [aGet, hp, if_true, Option.some.injEq] at h
      have hpv : p = (k, v) := by
        cases p
        simp only [Prod.mk.injEq]
        simp only at hp h
        exact ⟨hp, h⟩
      rw [← hpv]
      exact List.mem_cons_self p m
    · simp only [aGet, hp, if_false] at h
      exact List.mem_cons_of_mem p (ih k v h)

theorem aHas_exists_mem {α : Type} (m : List (Str × α)) (k : Str)
    (h : aHas m k = true) : ∃ v, (k, v) ∈ m := by
  obtain ⟨v, hv⟩ := (aHas_iff m k).mp h
  exact ⟨v, aGet_mem m k v hv⟩

theorem aHas_aPop_self {α : Type} (m : List (Str × α)) (k : Str) :
    aHas (aPop m k) k = false := by
  unfold aHas
  rw [aGet_aPop, if_pos rfl]
  rfl

theorem aHas_aPop_ne {α : Type} (m : List (Str × α)) (k t : Str)
    (h : ¬ t = k) : aHas (aPop m k) t = aHas m t := by
  unfold aHas
  rw [aGet_aPop, if_neg h]

theorem aHas_aSet_self {α : Type} (m : List (Str × α)) (k : Str) (v : α) :
    aHas (aSet m k v) k = true := by
  unfold aHas
  rw [aGet_aSet, if_pos rfl]
  rfl

theorem aHas_aSet_ne {α : Type} (m : List (Str × α)) (k t : Str) (v : α)
    (h : ¬ t = k) : aHas (aSet m k v) t = aHas m t := by
  unfold aHas
  rw [aGet_aSet, if_neg h]

theorem skipValid_congr (fs fs2 : Fs) (p : Str)
    (h : aGet fs p = aGet fs2 p) : skipValid fs p = skipValid fs2 p := by
  unfold skipValid aHas fileSize
  rw [h]

theorem processItem_eq_skip (env : RunEnv) (r : Bool) (m : Nat) (ls : LoopSt)
    (s : Str × Str) (hsv : skipValid ls.fs (fnameOf s.1) = true) :
    processItem env r m ls s = { ls with failed := aPop ls.failed s.1 } := by
  unfold processItem
  rw [if_pos hsv]

theorem processItem_eq_resolvefail (env : RunEnv) (r : Bool) (m : Nat)
    (ls : LoopSt) (s : Str × Str)
    (hsv : ¬ skipValid ls.fs (fnameOf s.1) = true)
    (hst : (if r then aGet ls.failed s.1 else none) = none)
    (hf : find_pdf_url env.urljoin s.2 (env.detail s.2) = none) :
    processItem env r m ls s =
      { ls with bad := ls.bad + 1,
                newFailed := aSet ls.newFailed s.1 s.2 } := by
  unfold processItem
  rw [if_neg hsv, hst, hf]

theorem processItem_eq_download_stored (env : RunEnv) (r : Bool) (m : Nat)
    (ls : LoopSt) (s : Str × Str) (u : Str)
    (hsv : ¬ skipValid ls.fs (fnameOf s.1) = true)
    (hst : (if r then aGet ls.failed s.1 else none) = some u) :
    processItem env r m ls s = downloadStep env m ls s.1 u := by
  unfold processItem
  rw [if_neg hsv, hst]

theorem processItem_eq_download_found (env : RunEnv) (r : Bool) (m : Nat)
    (ls : LoopSt) (s : Str × Str) (u : Str)
    (hsv : ¬ skipValid ls.fs (fnameOf s.1) = true)
    (hst : (if r then aGet ls.failed s.1 else none) = none)
    (hf : find_pdf_url env.urljoin s.2 (env.detail s.2) = some u) :
    processItem env r m ls s = downloadStep env m ls s.1 u := by
  unfold processItem
  rw [if_neg hsv, hst, hf]

theorem downloadStep_eq_success (env : RunEnv) (m : Nat) (ls : LoopSt)
    (t u : Str)
    (h : (tryDownload env u (fnameOf t) 0 m ls.fs).success = true) :
    downloadStep env m ls t u =
      { ls with fs := (tryDownload env u (fnameOf t) 0 m ls.fs).fs,
                failed := aPop ls.failed t, done := ls.done + 1 } := by
  simp only [downloadStep]
  rw [if_pos h]

theorem downloadStep_eq_fail (env : RunEnv) (m : Nat) (ls : LoopSt)
    (t u : Str)
    (h : ¬ (tryDownload env u (fnameOf t) 0 m ls.fs).success = true) :
    downloadStep env m ls t u =
      { ls with fs := (tryDownload env u (fnameOf t) 0 m ls.fs).fs,
                bad := ls.bad + 1,
                newFailed := aSet ls.newFailed t u } := by
  simp only [downloadStep]
  rw [if_neg h]

theorem tryDownload_fail_not_valid (env : RunEnv) (u fname : Str) (m : Nat)
    (fs : Fs)
    (hsucc : (tryDownload env u fname 0 m fs).success = false)
    (hsv : skipValid fs fname = false) :
    skipValid (tryDownload env u fname 0 m fs).fs fname = false := by
  cases m with
  | zero => exact hsv
  | succ f =>
    exact skipValid_absent _ _ (tryDownload_fail_absent env u fname f 0 fs hsucc)

theorem tryDownload_success_valid (env : RunEnv) (u fname : Str) (m : Nat)
    (fs : Fs) (hfetch : FetchOk env)
    (hsucc : (tryDownload env u fname 0 m fs).success = true) :
    skipValid (tryDownload env u fname 0 m fs).fs fname = true := by
  obtain ⟨body, hget, hpdf, hlen, n, hok⟩ :=
    tryDownload_success_file env u fname m 0 fs hsucc
  have hne := hfetch u n body hok
  have hgt : 1024 < body.length := lt_of_le_of_ne hlen (Ne.symm hne)
  rw [skipValid_eq _ _ _ hget]
  simp [hgt, hpdf]

theorem downloadStep_fs_other (env : RunEnv) (m : Nat) (ls : LoopSt)
    (t u q : Str) (hq : ¬ q = fnameOf t) :
    aGet (downloadStep env m ls t u).fs q = aGet ls.fs q := by
  simp only [downloadStep]
  split
  · exact tryDownload_other env u (fnameOf t) q hq m 0 ls.fs
  · exact tryDownload_other env u (fnameOf t) q hq m 0 ls.fs

theorem processItem_fs_other (env : RunEnv) (r : Bool) (m : Nat)
    (ls : LoopSt) (s : Str × Str) (q : Str) (hq : ¬ q = fnameOf s.1) :
    aGet (processItem env r m ls s).fs q = aGet ls.fs q := by
  by_cases hsv : skipValid ls.fs (fnameOf s.1) = true
  · rw [processItem_eq_skip env r m ls s hsv]
  · cases hst : (if r then aGet ls.failed s.1 else none) with
    | some u =>
      rw [processItem_eq_download_stored env r m ls s u hsv hst]
      exact downloadStep_fs_other env m ls s.1 u q hq
    | none =>
      cases hf : find_pdf_url env.urljoin s.2 (env.detail s.2) with
      | none => rw [processItem_eq_resolvefail env r m ls s hsv hst hf]
      | some u =>
        rw [processItem_eq_download_found env r m ls s u hsv hst hf]
        exact downloadStep_fs_other env m ls s.1 u q hq

theorem foldl_fs_other (env : RunEnv) (r : Bool) (m : Nat) :
    ∀ (todo : List (Str × Str)) (ls : LoopSt) (q : Str),
      (∀ i ∈ todo, ¬ q = fnameOf i.1) →
      aGet (List.foldl (processItem env r m) ls todo).fs q = aGet ls.fs q := by
  intro todo
  induction todo with
  | nil => intro ls q _; rfl
  | cons i rest ih =>
    intro ls q h
    simp only [List.foldl_cons]
    rw [ih _ q (fun j hj => h j (List.mem_cons_of_mem i hj))]
    exact processItem_fs_other env r m ls i q (h i (List.mem_cons_self i rest))

theorem processItem_status (env : RunEnv) (m : Nat) (ls : LoopSt)
    (s : Str × Str) (hfetch : FetchOk env) :
    skipValid (processItem env false m ls s).fs (fnameOf s.1) = true ∨
    (skipValid (processItem env false m ls s).fs (fnameOf s.1) = false ∧
      outcomeOf env m s = false) := by
  by_cases hsv : skipValid ls.fs (fnameOf s.1) = true
  · rw [processItem_eq_skip env false m ls s hsv]
    exact Or.inl hsv
  · have hsv2 := bool_not_true hsv
    cases hf : find_pdf_url env.urljoin s.2 (env.detail s.2) with
    | none =>
      rw [processItem_eq_resolvefail env false m ls s hsv (by rfl) hf]
      right
      refine ⟨hsv2, ?_⟩
      unfold outcomeOf
      rw [hf]
    | some u =>
      rw [processItem_eq_download_found env false m ls s u hsv (by rfl) hf]
      by_cases hsucc : (tryDownload env u (fnameOf s.1) 0 m ls.fs).success = true
      · rw [downloadStep_eq_success env m ls s.1 u hsucc]
        exact Or.inl (tryDownload_success_valid env u (fnameOf s.1) m ls.fs hfetch hsucc)
      · have hsucc2 := bool_not_true hsucc
        rw [downloadStep_eq_fail env m ls s.1 u hsucc]
        right
        refine ⟨tryDownload_fail_not_valid env u (fnameOf s.1) m ls.fs hsucc2 hsv2, ?_⟩
        unfold outcomeOf
        rw [hf]
        show trySucc env u 0 m = false
        rw [← tryDownload_success_eq env u (fnameOf s.1) m 0 ls.fs]
        exact hsucc2

theorem processItem_no_download (env : RunEnv) (m : Nat) (ls : LoopSt)
    (s : Str × Str)
    (h : skipValid ls.fs (fnameOf s.1) = true ∨ outcomeOf env m s = false) :
    (processItem env false m ls s).done = ls.done := by
  by_cases hsv : skipValid ls.fs (fnameOf s.1) = true
  · rw [processItem_eq_skip env false m ls s hsv]
  · have ho : outcomeOf env m s = false := h.resolve_left hsv
    cases hf : find_pdf_url env.urljoin s.2 (env.detail s.2) with
    | none => rw [processItem_eq_resolvefail env false m ls s hsv (by rfl) hf]
    | some u =>
      rw [processItem_eq_download_found env false m ls s u hsv (by rfl) hf]
      unfold outcomeOf at ho
      rw [hf] at ho
      have ho2 : trySucc env u 0 m = false := ho
      rw [← tryDownload_success_eq env u (fnameOf s.1) m 0 ls.fs] at ho2
      rw [downloadStep_eq_fail env m ls s.1 u (by rw [ho2]; simp)]

/-! ### Idempotence of a second normal run (C8) -/

theorem processItem_valid_mono (env : RunEnv) (r : Bool) (m : Nat)
    (ls : LoopSt) (s : Str × Str) (p : Str)
    (h : skipValid ls.fs p = true) :
    skipValid (processItem env r m ls s).fs p = true := by
  by_cases hsv : skipValid ls.fs (fnameOf s.1) = true
  · rw [processItem_eq_skip env r m ls s hsv]
    exact h
  · have hp : ¬ p = fnameOf s.1 := fun he => hsv (he ▸ h)
    rw [skipValid_congr _ _ _ (processItem_fs_other env r m ls s p hp)]
    exact h

theorem foldl_valid_mono (env : RunEnv) (r : Bool) (m : Nat) :
    ∀ (todo : List (Str × Str)) (ls : LoopSt) (p : Str),
      skipValid ls.fs p = true →
      skipValid (List.foldl (processItem env r m) ls todo).fs p = true := by
  intro todo
  induction todo with
  | nil => intro ls p h; exact h
  | cons s rest ih =>
    intro ls p h
    simp only [List.foldl_cons]
    exact ih (processItem env r m ls s) p
      (processItem_valid_mono env r m ls s p h)

theorem foldl_status_weak (env : RunEnv) (m : Nat) (hfetch : FetchOk env) :
    ∀ (todo : List (Str × Str)) (ls : LoopSt),
      ∀ i ∈ todo,
        skipValid (List.foldl (processItem env false m) ls todo).fs
          (fnameOf i.1) = true ∨
        outcomeOf env m i = false := by
  intro todo
  induction todo with
  | nil => intro ls i hi; exact absurd hi (List.not_mem_nil i)
  | cons j rest ih =>
    intro ls i hi
    simp only [List.foldl_cons]
    rcases List.mem_cons.mp hi with hij | hmem
    · subst hij
      rcases processItem_status env m ls i hfetch with h1 | h2
      · exact Or.inl (foldl_valid_mono env false m rest _ _ h1)
      · exact Or.inr h2.2
    · exact ih (processItem env false m ls j) i hmem

theorem foldl_done_zero_weak (env : RunEnv) (m : Nat) :
    ∀ (todo : List (Str × Str)) (ls : LoopSt),
      (∀ i ∈ todo,
        skipValid ls.fs (fnameOf i.1) = true ∨ outcomeOf env m i = false) →
      (List.foldl (processItem env false m) ls todo).done = ls.done := by
  intro todo
  induction todo with
  | nil => intro ls _; rfl
  | cons j rest ih =>
    intro ls hstatus
    simp only [List.foldl_cons]
    have hj := hstatus j (List.mem_cons_self j rest)
    have hrest : ∀ i ∈ rest,
        skipValid (processItem env false m ls j).fs (fnameOf i.1) = true ∨
        outcomeOf env m i = false := by
      intro i hi
      rcases hstatus i (List.mem_cons_of_mem j hi) with h1 | h1
      · exact Or.inl (processItem_valid_mono env false m ls j _ h1)
      · exact Or.inr h1
    rw [ih (processItem env false m ls j) hrest]
    exact processItem_no_download env m ls j hj

theorem run_normal_eq (env : RunEnv) (m : Nat) (st : St)
    (items : List (Str × Str)) (hidx : env.index = some items) :
    run env false m st =
      ((run_items env false m st.fs (load_log st.ledger) items).1,
       some (run_items env false m st.fs (load_log st.ledger) items).2) := by
  simp only [run]
  rw [if_neg (by simp), hidx]

theorem run_items_snd (env : RunEnv) (r : Bool) (m : Nat) (fs0 : Fs)
    (f0 : Ledger) (todo : List (Str × Str)) :
    (run_items env r m fs0 f0 todo).2 =
      List.foldl (processItem env r m) ⟨fs0, f0, [], 0, 0⟩ todo := by
  simp only [run_items]

theorem run_items_fst_fs (env : RunEnv) (r : Bool) (m : Nat) (fs0 : Fs)
    (f0 : Ledger) (todo : List (Str × Str)) :
    (run_items env r m fs0 f0 todo).1.fs =
      (List.foldl (processItem env r m) ⟨fs0, f0, [], 0, 0⟩ todo).fs := by
  simp only [run_items]

/-- C8 (amended): (a) a pre-existing valid local file short-circuits the
item: the state change is exactly a `failed` pop, independent of the
environment (so no network access for that item).  (b) Running the fetch
process twice in a row in normal mode with the same remote behavior yields
zero downloads on the second run, provided no fetched body has length
exactly 1024 (a successful 1024-byte download fails the next run's skip
check and would be re-downloaded — the counterexample's boundary case).
No further hypothesis is needed: valid files are never invalidated within
or across runs, so even under sanitized-file-name collisions every item
either finds a valid file at its name or repeats a deterministic
failure. -/
theorem valid_file_skip_and_idempotence :
    (∀ (env env2 : RunEnv) (r : Bool) (m : Nat) (ls : LoopSt)
      (item : Str × Str),
      skipValid ls.fs (fnameOf item.1) = true →
      processItem env r m ls item = { ls with failed := aPop ls.failed item.1 } ∧
      processItem env r m ls item = processItem env2 r m ls item) ∧
    (∀ (env : RunEnv) (m : Nat) (st : St) (items : List (Str × Str))
      (ls2 : LoopSt),
      env.index = some items →
      FetchOk env →
      (run env false m (runSt env false m st)).2 = some ls2 →
      ls2.done = 0) := by
  constructor
  · intro env env2 r m ls item hsv
    refine ⟨processItem_eq_skip env r m ls item hsv, ?_⟩
    rw [processItem_eq_skip env r m ls item hsv,
      processItem_eq_skip env2 r m ls item hsv]
  · intro env m st items ls2 hidx hfetch h2
    have hst1 : runSt env false m st =
        (run_items env false m st.fs (load_log st.ledger) items).1 := by
      unfold runSt
      rw [run_normal_eq env m st items hidx]
    rw [run_normal_eq env m (runSt env false m st) items hidx] at h2
    simp only [Option.some.injEq] at h2
    rw [← h2, run_items_snd]
    have hF : (runSt env false m st).fs =
        (List.foldl (processItem env false m)
          ⟨st.fs, load_log st.ledger, [], 0, 0⟩ items).fs := by
      rw [hst1, run_items_fst_fs]
    apply foldl_done_zero_weak env m items
      ⟨(runSt env false m st).fs, load_log (runSt env false m st).ledger,
        [], 0, 0⟩
    intro i hi
    rcases foldl_status_weak env m hfetch items
      ⟨st.fs, load_log st.ledger, [], 0, 0⟩ i hi with h1 | h1
    · left
      show skipValid (runSt env false m st).fs (fnameOf i.1) = true
      rw [hF]
      exact h1
    · exact Or.inr h1

/-- Witness for the amended C8 at a concrete input: a pre-existing valid
file is skipped identically under two environments, and a second run after
a successful first run performs zero downloads. -/
theorem valid_file_skip_and_idempotence_witness :
    processItem goodEnv false 3
      ⟨[(fnameOf t1, bodyValid)], [], [], 0, 0⟩ (t1, u1) =
      processItem noLinkEnv false 3
        ⟨[(fnameOf t1, bodyValid)], [], [], 0, 0⟩ (t1, u1) ∧
    ∀ ls2, (run goodEnv false 3 (runSt goodEnv false 3 st0)).2 = some ls2 →
      ls2.done = 0 := by
  have hsv : skipValid (⟨[(fnameOf t1, bodyValid)], [], [], 0, 0⟩ :
      LoopSt).fs (fnameOf t1) = true := by
    rw [skipValid_eq _ _ bodyValid (by simp [aGet])]
    have hv : is_pdf (some bodyValid) = true := is_pdf_magic _
    rw [bodyValid_length, hv]
    decide
  constructor
  · exact (valid_file_skip_and_idempotence.1 goodEnv noLinkEnv false 3
      ⟨[(fnameOf t1, bodyValid)], [], [], 0, 0⟩ (t1, u1) hsv).2
  · intro ls2 h2
    refine valid_file_skip_and_idempotence.2 goodEnv 3 st0 [(t1, u1)] ls2
      rfl ?_ h2
    intro url n body hok
    have hb : bodyValid = body := by simpa [goodEnv] using hok
    rw [← hb, bodyValid_length]
    decide

set_option maxRecDepth 16384 in
/-- C8 counterexample: with a remote serving exactly 1024 bytes with the
magic header, the first run downloads and succeeds, but the saved file
fails the skip check (`> 1024`), so the second run downloads it again:
its `done` counter is 1, not 0. -/
theorem second_run_redownloads :
    ((run boundaryEnv false 3 (runSt boundaryEnv false 3 st0)).2).map
      LoopSt.done = some 1 := by
  rfl

/-! ### The ledger invariant (C1) -/

set_option maxRecDepth 16384 in
/-- C1 counterexample: a single normal run from an empty ledger over an
index with one item whose document is exactly 1024 bytes with the magic
header.  The download is accepted, the title ends outside the ledger
(the ledger file is absent), yet the persisted local file fails
validation under the resumability criterion (`size > 1024`): the claimed
invariant "title not in ledger implies file present and valid" is
violated after this run. -/
theorem ledger_invariant_boundary_violation :
    (runSt boundaryEnv false 3 st0).ledger = none ∧
    aHas (runSt boundaryEnv false 3 st0).fs (fnameOf t1) = true ∧
    skipValid (runSt boundaryEnv false 3 st0).fs (fnameOf t1) = false ∧
    boundaryEnv.index = some [(t1, u1)] ∧ st0.ledger = none := by
  exact ⟨rfl, rfl, rfl, rfl, rfl⟩

theorem mem_aHas {α : Type} :
    ∀ (m : List (Str × α)) (p : Str × α), p ∈ m → aHas m p.1 = true := by
  intro m
  induction m with
  | nil => intro p hp; exact absurd hp (List.not_mem_nil p)
  | cons q rest ih =>
    intro p hp
    by_cases hq : q.1 = p.1
    · simp [aHas, aGet, hq]
    · rcases List.mem_cons.mp hp with h1 | h2
      · exact absurd (congrArg Prod.fst h1.symm) hq
      · simp only [aHas, aGet, hq, if_false]
        exact ih p h2

theorem aHas_false_not_mem_keys {α : Type} (m : List (Str × α)) (k : Str)
    (h : aHas m k = false) : ¬ k ∈ m.map Prod.fst := by
  intro hk
  obtain ⟨p, hp, hpk⟩ := List.mem_map.mp hk
  have := mem_aHas m p hp
  rw [hpk] at this
  rw [this] at h
  simp at h

theorem aHas_aUpdate {α : Type} :
    ∀ (m2 m : List (Str × α)) (t : Str),
      aHas (aUpdate m m2) t = (aHas m t || aHas m2 t) := by
  intro m2
  induction m2 with
  | nil => intro m t; simp [aUpdate, aHas, aGet]
  | cons p m2 ih =>
    intro m t
    have hstep : aUpdate m (p :: m2) = aUpdate (aSet m p.1 p.2) m2 := rfl
    rw [hstep, ih]
    by_cases hp : t = p.1
    · rw [hp, aHas_aSet_self]
      simp [aHas, aGet]
    · rw [aHas_aSet_ne m p.1 t p.2 hp]
      have hp2 : ¬ p.1 = t := fun h => hp h.symm
      simp [aHas, aGet, hp2]

theorem aSet_keys_nodup {α : Type} (m : List (Str × α)) (k : Str) (v : α)
    (h : (m.map Prod.fst).Nodup) : ((aSet m k v).map Prod.fst).Nodup := by
  unfold aSet
  by_cases hh : aHas m k = true
  · rw [if_pos hh]
    have heq : (m.map (fun p => if p.1 = k then (k, v) else p)).map Prod.fst =
        m.map Prod.fst := by
      rw [List.map_map]
      apply List.map_congr_left
      intro p _
      by_cases hp : p.1 = k
      · simp [hp]
      · simp [hp]
    rw [heq]
    exact h
  · rw [if_neg hh]
    rw [List.map_append]
    rw [List.nodup_append]
    refine ⟨h, List.nodup_singleton k, ?_⟩
    intro a ha hak
    simp only [List.map_cons, List.map_nil, List.mem_singleton] at hak
    exact aHas_false_not_mem_keys m k (bool_not_true hh) (hak ▸ ha)

theorem aUpdate_keys_nodup {α : Type} :
    ∀ (m2 m : List (Str × α)), (m.map Prod.fst).Nodup →
      ((aUpdate m m2).map Prod.fst).Nodup := by
  intro m2
  induction m2 with
  | nil => intro m h; exact h
  | cons p m2 ih =>
    intro m h
    exact ih (aSet m p.1 p.2) (aSet_keys_nodup m p.1 p.2 h)

theorem aPop_sublist {α : Type} :
    ∀ (m : List (Str × α)) (k : Str), (aPop m k).Sublist m := by
  intro m
  induction m with
  | nil => intro k; simp [aPop]
  | cons p rest ih =>
    intro k
    by_cases hp : p.1 = k
    · simp only [aPop, hp, if_true]
      exact (ih k).cons p
    · simp only [aPop, hp, if_false]
      exact (ih k).cons₂ p

theorem foldl_failed_keys_nodup (env : RunEnv) (r : Bool) (m : Nat) :
    ∀ (todo : List (Str × Str)) (ls : LoopSt),
      (ls.failed.map Prod.fst).Nodup →
      ((List.foldl (processItem env r m) ls todo).failed.map Prod.fst).Nodup := by
  intro todo
  induction todo with
  | nil => intro ls h; exact h
  | cons s rest ih =>
    intro ls h
    simp only [List.foldl_cons]
    apply ih
    have hcase : (processItem env r m ls s).failed = aPop ls.failed s.1 ∨
        (processItem env r m ls s).failed = ls.failed := by
      by_cases hsv : skipValid ls.fs (fnameOf s.1) = true
      · rw [processItem_eq_skip env r m ls s hsv]
        exact Or.inl rfl
      · cases hst : (if r then aGet ls.failed s.1 else none) with
        | some u =>
          rw [processItem_eq_download_stored env r m ls s u hsv hst]
          by_cases hsucc : (tryDownload env u (fnameOf s.1) 0 m ls.fs).success = true
          · rw [downloadStep_eq_success env m ls s.1 u hsucc]
            exact Or.inl rfl
          · rw [downloadStep_eq_fail env m ls s.1 u hsucc]
            exact Or.inr rfl
        | none =>
          cases hf : find_pdf_url env.urljoin s.2 (env.detail s.2) with
          | none =>
            rw [processItem_eq_resolvefail env r m ls s hsv hst hf]
            exact Or.inr rfl
          | some u =>
            rw [processItem_eq_download_found env r m ls s u hsv hst hf]
            by_cases hsucc : (tryDownload env u (fnameOf s.1) 0 m ls.fs).success = true
            · rw [downloadStep_eq_success env m ls s.1 u hsucc]
              exact Or.inl rfl
            · rw [downloadStep_eq_fail env m ls s.1 u hsucc]
              exact Or.inr rfl
    rcases hcase with h1 | h2
    · rw [h1]
      exact List.Nodup.sublist ((aPop_sublist ls.failed s.1).map Prod.fst) h
    · rw [h2]
      exact h

theorem loopInv_succeedShape (T : Str → Prop) (failed0 : Ledger)
    (allT psT remT : List Str) (s1 : Str) (ls : LoopSt) (fs2 : Fs)
    (d b : Nat)
    (hinj : FnameInj T)
    (hT0 : ∀ p ∈ failed0, T p.1)
    (hTall : ∀ t ∈ allT, T t)
    (hallT : allT = psT ++ s1 :: remT)
    (hs_ps : ¬ s1 ∈ psT)
    (hother : ∀ q, ¬ q = fnameOf s1 → aGet fs2 q = aGet ls.fs q)
    (hok : skipValid fs2 (fnameOf s1) = true)
    (hInv : LoopInv failed0 allT psT ls) :
    LoopInv failed0 allT (psT ++ [s1])
      ⟨fs2, aPop ls.failed s1, ls.newFailed, d, b⟩ := by
  obtain ⟨i1, i2, i3, i4, i5, i6⟩ := hInv
  have hsAll : s1 ∈ allT := by
    rw [hallT]
    exact List.mem_append_right psT (List.mem_cons_self s1 remT)
  have hTs : T s1 := hTall s1 hsAll
  have hpsAll : ∀ t, t ∈ psT → t ∈ allT := by
    intro t ht
    rw [hallT]
    exact List.mem_append_left _ ht
  have hfne : ∀ t, T t → ¬ t = s1 → ¬ fnameOf t = fnameOf s1 :=
    fun t hTt hne he => hne (hinj t s1 hTt hTs he)
  have hpres : ∀ t, T t → ¬ t = s1 →
      skipValid fs2 (fnameOf t) = skipValid ls.fs (fnameOf t) :=
    fun t hTt hne => skipValid_congr _ _ _ (hother _ (hfne t hTt hne))
  refine ⟨?_, ?_, ?_, ?_, ?_, ?_⟩
  · intro p hp
    exact i1 p (mem_aPop ls.failed s1 p hp)
  · intro t ht
    exact List.mem_append_left _ (i2 t ht)
  · intro t ht htps
    have hne : ¬ t = s1 := by
      intro he
      rw [he, aHas_aPop_self] at ht
      simp at ht
    rw [aHas_aPop_ne ls.failed s1 t hne] at ht
    have htps2 : t ∈ psT := by
      rcases List.mem_append.mp htps with h1 | h1
      · exact h1
      · exact absurd (List.mem_singleton.mp h1) hne
    exact i3 t ht htps2
  · intro t ht
    have htps := i2 t ht
    have hne : ¬ t = s1 := fun he => hs_ps (he ▸ htps)
    have hTt : T t := hTall t (hpsAll t htps)
    rw [hpres t hTt hne]
    exact i4 t ht
  · intro t ht hnall
    have hne : ¬ t = s1 := fun he => hnall (he ▸ hsAll)
    rw [aHas_aPop_ne ls.failed s1 t hne] at ht
    obtain ⟨v, hv⟩ := aHas_exists_mem ls.failed t ht
    have hTt : T t := hT0 (t, v) (i1 (t, v) hv)
    rw [hpres t hTt hne]
    exact i5 t ht hnall
  · intro t htm hf hn
    rcases List.mem_append.mp htm with h1 | h1
    · have hne : ¬ t = s1 := fun he => hs_ps (he ▸ h1)
      rw [aHas_aPop_ne ls.failed s1 t hne] at hf
      have hTt : T t := hTall t (hpsAll t h1)
      rw [hpres t hTt hne]
      exact i6 t h1 hf hn
    · rw [List.mem_singleton.mp h1]
      exact hok

theorem loopInv_failShape (T : Str → Prop) (failed0 : Ledger)
    (allT psT remT : List Str) (s1 : Str) (ls : LoopSt) (fs2 : Fs) (u : Str)
    (d b : Nat)
    (hinj : FnameInj T)
    (hT0 : ∀ p ∈ failed0, T p.1)
    (hTall : ∀ t ∈ allT, T t)
    (hallT : allT = psT ++ s1 :: remT)
    (hs_ps : ¬ s1 ∈ psT)
    (hother : ∀ q, ¬ q = fnameOf s1 → aGet fs2 q = aGet ls.fs q)
    (hbad : skipValid fs2 (fnameOf s1) = false)
    (hInv : LoopInv failed0 allT psT ls) :
    LoopInv failed0 allT (psT ++ [s1])
      ⟨fs2, ls.failed, aSet ls.newFailed s1 u, d, b⟩ := by
  obtain ⟨i1, i2, i3, i4, i5, i6⟩ := hInv
  have hsAll : s1 ∈ allT := by
    rw [hallT]
    exact List.mem_append_right psT (List.mem_cons_self s1 remT)
  have hTs : T s1 := hTall s1 hsAll
  have hpsAll : ∀ t, t ∈ psT → t ∈ allT := by
    intro t ht
    rw [hallT]
    exact List.mem_append_left _ ht
  have hfne : ∀ t, T t → ¬ t = s1 → ¬ fnameOf t = fnameOf s1 :=
    fun t hTt hne he => hne (hinj t s1 hTt hTs he)
  have hpres : ∀ t, T t → ¬ t = s1 →
      skipValid fs2 (fnameOf t) = skipValid ls.fs (fnameOf t) :=
    fun t hTt hne => skipValid_congr _ _ _ (hother _ (hfne t hTt hne))
  refine ⟨?_, ?_, ?_, ?_, ?_, ?_⟩
  · intro p hp
    exact i1 p hp
  · intro t ht
    by_cases hne : t = s1
    · exact List.mem_append_right psT (hne ▸ List.mem_singleton_self s1)
    · rw [aHas_aSet_ne ls.newFailed s1 t u hne] at ht
      exact List.mem_append_left _ (i2 t ht)
  · intro t ht htps
    by_cases hne : t = s1
    · rw [hne, aHas_aSet_self]
    · rw [aHas_aSet_ne ls.newFailed s1 t u hne]
      have htps2 : t ∈ psT := by
        rcases List.mem_append.mp htps with h1 | h1
        · exact h1
        · exact absurd (List.mem_singleton.mp h1) hne
      exact i3 t ht htps2
  · intro t ht
    by_cases hne : t = s1
    · rw [hne]
      exact hbad
    · rw [aHas_aSet_ne ls.newFailed s1 t u hne] at ht
      have htps := i2 t ht
      have hTt : T t := hTall t (hpsAll t htps)
      rw [hpres t hTt hne]
      exact i4 t ht
  · intro t ht hnall
    have hne : ¬ t = s1 := fun he => hnall (he ▸ hsAll)
    obtain ⟨v, hv⟩ := aHas_exists_mem ls.failed t ht
    have hTt : T t := hT0 (t, v) (i1 (t, v) hv)
    rw [hpres t hTt hne]
    exact i5 t ht hnall
  · intro t htm hf hn
    rcases List.mem_append.mp htm with h1 | h1
    · have hne : ¬ t = s1 := fun he => hs_ps (he ▸ h1)
      rw [aHas_aSet_ne ls.newFailed s1 t u hne] at hn
      have hTt : T t := hTall t (hpsAll t h1)
      rw [hpres t hTt hne]
      exact i6 t h1 hf hn
    · exfalso
      rw [List.mem_singleton.mp h1, aHas_aSet_self] at hn
      simp at hn

theorem loopInv_downloadStep (T : Str → Prop) (env : RunEnv) (m : Nat)
    (failed0 : Ledger) (allT psT remT : List Str) (s1 u : Str) (ls : LoopSt)
    (hinj : FnameInj T) (hfetch : FetchOk env)
    (hT0 : ∀ p ∈ failed0, T p.1)
    (hTall : ∀ t ∈ allT, T t)
    (hallT : allT = psT ++ s1 :: remT)
    (hs_ps : ¬ s1 ∈ psT)
    (hsv2 : skipValid ls.fs (fnameOf s1) = false)
    (hInv : LoopInv failed0 allT psT ls) :
    LoopInv failed0 allT (psT ++ [s1]) (downloadStep env m ls s1 u) := by
  by_cases hsucc : (tryDownload env u (fnameOf s1) 0 m ls.fs).success = true
  · rw [downloadStep_eq_success env m ls s1 u hsucc]
    exact loopInv_succeedShape T failed0 allT psT remT s1 ls
      (tryDownload env u (fnameOf s1) 0 m ls.fs).fs (ls.done + 1) ls.bad
      hinj hT0 hTall hallT hs_ps
      (fun q hq => tryDownload_other env u (fnameOf s1) q hq m 0 ls.fs)
      (tryDownload_success_valid env u (fnameOf s1) m ls.fs hfetch hsucc)
      hInv
  · rw [downloadStep_eq_fail env m ls s1 u hsucc]
    exact loopInv_failShape T failed0 allT psT remT s1 ls
      (tryDownload env u (fnameOf s1) 0 m ls.fs).fs u ls.done (ls.bad + 1)
      hinj hT0 hTall hallT hs_ps
      (fun q hq => tryDownload_other env u (fnameOf s1) q hq m 0 ls.fs)
      (tryDownload_fail_not_valid env u (fnameOf s1) m ls.fs
        (bool_not_true hsucc) hsv2)
      hInv

theorem loopInv_step (T : Str → Prop) (env : RunEnv) (r : Bool) (m : Nat)
    (failed0 : Ledger) (allT psT remT : List Str) (s : Str × Str)
    (ls : LoopSt)
    (hinj : FnameInj T) (hfetch : FetchOk env)
    (hT0 : ∀ p ∈ failed0, T p.1)
    (hTall : ∀ t ∈ allT, T t)
    (hallT : allT = psT ++ s.1 :: remT)
    (hs_ps : ¬ s.1 ∈ psT)
    (hInv : LoopInv failed0 allT psT ls) :
    LoopInv failed0 allT (psT ++ [s.1]) (processItem env r m ls s) := by
  by_cases hsv : skipValid ls.fs (fnameOf s.1) = true
  · rw [processItem_eq_skip env r m ls s hsv]
    exact loopInv_succeedShape T failed0 allT psT remT s.1 ls ls.fs
      ls.done ls.bad hinj hT0 hTall hallT hs_ps (fun q _ => rfl) hsv hInv
  · have hsv2 := bool_not_true hsv
    cases hst : (if r then aGet ls.failed s.1 else none) with
    | some u =>
      rw [processItem_eq_download_stored env r m ls s u hsv hst]
      exact loopInv_downloadStep T env m failed0 allT psT remT s.1 u ls
        hinj hfetch hT0 hTall hallT hs_ps hsv2 hInv
    | none =>
      cases hf : find_pdf_url env.urljoin s.2 (env.detail s.2) with
      | none =>
        rw [processItem_eq_resolvefail env r m ls s hsv hst hf]
        exact loopInv_failShape T failed0 allT psT remT s.1 ls ls.fs s.2
          ls.done (ls.bad + 1) hinj hT0 hTall hallT hs_ps
          (fun q _ => rfl) hsv2 hInv
      | some u =>
        rw [processItem_eq_download_found env r m ls s u hsv hst hf]
        exact loopInv_downloadStep T env m failed0 allT psT remT s.1 u ls
          hinj hfetch hT0 hTall hallT hs_ps hsv2 hInv

theorem loopInv_foldl (T : Str → Prop) (env : RunEnv) (r : Bool) (m : Nat)
    (failed0 : Ledger) (allT : List Str)
    (hinj : FnameInj T) (hfetch : FetchOk env)
    (hT0 : ∀ p ∈ failed0, T p.1)
    (hTall : ∀ t ∈ allT, T t) :
    ∀ (todo : List (Str × Str)) (psT : List Str) (ls : LoopSt),
      allT = psT ++ todo.map Prod.fst →
      allT.Nodup →
      LoopInv failed0 allT psT ls →
      LoopInv failed0 allT (psT ++ todo.map Prod.fst)
        (List.foldl (processItem env r m) ls todo) := by
  intro todo
  induction todo with
  | nil =>
    intro psT ls hallT _ hInv
    simpa using hInv
  | cons s rest ih =>
    intro psT ls hallT hnd hInv
    have hnd2 : (psT ++ s.1 :: rest.map Prod.fst).Nodup := by
      rw [List.map_cons] at hallT
      rw [← hallT]
      exact hnd
    have hs_ps : ¬ s.1 ∈ psT := by
      intro hmem
      obtain ⟨_, _, hdisj⟩ := List.nodup_append.mp hnd2
      exact hdisj hmem (List.mem_cons_self s.1 (rest.map Prod.fst))
    have hallT1 : allT = psT ++ s.1 :: rest.map Prod.fst := by
      rw [hallT, List.map_cons]
    have hallT2 : allT = (psT ++ [s.1]) ++ rest.map Prod.fst := by
      rw [hallT1, List.append_assoc, List.singleton_append]
    simp only [List.foldl_cons, List.map_cons]
    have hstep := loopInv_step T env r m failed0 allT psT
      (rest.map Prod.fst) s ls hinj hfetch hT0 hTall hallT1 hs_ps hInv
    have hrest := ih (psT ++ [s.1]) (processItem env r m ls s) hallT2 hnd hstep
    have hps : (psT ++ [s.1]) ++ rest.map Prod.fst =
        psT ++ s.1 :: rest.map Prod.fst := by
      rw [List.append_assoc, List.singleton_append]
    rw [hps] at hrest
    exact hrest

theorem run_retry_eq (env : RunEnv) (r : Bool) (m : Nat) (st : St)
    (hb : (r && !(load_log st.ledger).isEmpty) = true) :
    run env r m st =
      ((run_items env r m st.fs (load_log st.ledger) (load_log st.ledger)).1,
       some (run_items env r m st.fs (load_log st.ledger)
         (load_log st.ledger)).2) := by
  simp only [run]
  rw [if_pos hb]

theorem run_else_eq (env : RunEnv) (r : Bool) (m : Nat) (st : St)
    (items : List (Str × Str))
    (hb : ¬ (r && !(load_log st.ledger).isEmpty) = true)
    (hidx : env.index = some items) :
    run env r m st =
      ((run_items env r m st.fs (load_log st.ledger) items).1,
       some (run_items env r m st.fs (load_log st.ledger) items).2) := by
  simp only [run]
  rw [if_neg hb, hidx]

theorem run_abort_eq (env : RunEnv) (r : Bool) (m : Nat) (st : St)
    (hb : ¬ (r && !(load_log st.ledger).isEmpty) = true)
    (hidx : env.index = none) :
    run env r m st = (st, none) := by
  simp only [run]
  rw [if_neg hb, hidx]

theorem todoOf_retry (env : RunEnv) (r : Bool) (st : St)
    (hb : (r && !(load_log st.ledger).isEmpty) = true) :
    todoOf env r st = load_log st.ledger := by
  simp only [todoOf]
  rw [if_pos hb]

theorem todoOf_else (env : RunEnv) (r : Bool) (st : St)
    (items : List (Str × Str))
    (hb : ¬ (r && !(load_log st.ledger).isEmpty) = true)
    (hidx : env.index = some items) :
    todoOf env r st = items := by
  simp only [todoOf]
  rw [if_neg hb, hidx]

theorem todoOf_abort (env : RunEnv) (r : Bool) (st : St)
    (hb : ¬ (r && !(load_log st.ledger).isEmpty) = true)
    (hidx : env.index = none) :
    todoOf env r st = [] := by
  simp only [todoOf]
  rw [if_neg hb, hidx]

theorem run_items_ledgerInv (T : Str → Prop) (env : RunEnv) (r : Bool)
    (m : Nat) (fs0 : Fs) (failed0 : Ledger) (todo : List (Str × Str))
    (hinj : FnameInj T) (hfetch : FetchOk env)
    (hnd0 : (failed0.map Prod.fst).Nodup)
    (hT0 : ∀ p ∈ failed0, T p.1)
    (hbad0 : ∀ p ∈ failed0, skipValid fs0 (fnameOf p.1) = false)
    (hndT : (todo.map Prod.fst).Nodup)
    (hTt : ∀ i ∈ todo, T i.1) :
    LedgerInv T (run_items env r m fs0 failed0 todo).1 ∧
    (∀ i ∈ todo,
      aHas (load_log (run_items env r m fs0 failed0 todo).1.ledger) i.1 =
        false →
      skipValid (run_items env r m fs0 failed0 todo).1.fs (fnameOf i.1) =
        true) := by
  have hTall : ∀ t ∈ todo.map Prod.fst, T t := by
    intro t ht
    obtain ⟨p, hp, hpt⟩ := List.mem_map.mp ht
    exact hpt ▸ hTt p hp
  have hInv0 : LoopInv failed0 (todo.map Prod.fst) []
      ⟨fs0, failed0, [], 0, 0⟩ := by
    refine ⟨fun p hp => hp, ?_, ?_, ?_, ?_, ?_⟩
    · intro t ht
      simp [aHas, aGet] at ht
    · intro t _ ht
      exact absurd ht (List.not_mem_nil t)
    · intro t ht
      simp [aHas, aGet] at ht
    · intro t ht _
      obtain ⟨v, hv⟩ := aHas_exists_mem failed0 t ht
      exact hbad0 (t, v) hv
    · intro t ht
      exact absurd ht (List.not_mem_nil t)
  have hfold := loopInv_foldl T env r m failed0 (todo.map Prod.fst)
    hinj hfetch hT0 hTall todo [] ⟨fs0, failed0, [], 0, 0⟩
    (by rw [List.nil_append]) hndT hInv0
  rw [List.nil_append] at hfold
  obtain ⟨j1, j2, j3, j4, j5, j6⟩ := hfold
  have hndF : (((List.foldl (processItem env r m)
      ⟨fs0, failed0, [], 0, 0⟩ todo).failed).map Prod.fst).Nodup :=
    foldl_failed_keys_nodup env r m todo ⟨fs0, failed0, [], 0, 0⟩ hnd0
  have hledger := run_items_ledger env r m fs0 failed0 todo
  have hfs := run_items_fst_fs env r m fs0 failed0 todo
  have hsnd := run_items_snd env r m fs0 failed0 todo
  set lsF := List.foldl (processItem env r m) ⟨fs0, failed0, [], 0, 0⟩ todo
    with hlsF
  rw [hsnd] at hledger
  by_cases hcond : (!lsF.newFailed.isEmpty || (r && !lsF.failed.isEmpty)) = true
  · rw [if_pos hcond] at hledger
    have hload : load_log (run_items env r m fs0 failed0 todo).1.ledger =
        aUpdate lsF.failed lsF.newFailed := by
      rw [hledger]
      rfl
    constructor
    · refine ⟨?_, ?_, ?_⟩
      · rw [hload]
        exact aUpdate_keys_nodup lsF.newFailed lsF.failed hndF
      · intro p hp
        rw [hload] at hp
        have hhas := mem_aHas _ p hp
        rw [aHas_aUpdate] at hhas
        rcases Bool.or_eq_true_iff.mp hhas with h1 | h1
        · obtain ⟨v, hv⟩ := aHas_exists_mem lsF.failed p.1 h1
          exact hT0 (p.1, v) (j1 (p.1, v) hv)
        · exact hTall p.1 (j2 p.1 h1)
      · intro p hp
        rw [hload] at hp
        have hhas := mem_aHas _ p hp
        rw [aHas_aUpdate] at hhas
        rw [hfs]
        rcases Bool.or_eq_true_iff.mp hhas with h1 | h1
        · by_cases h2 : aHas lsF.newFailed p.1 = true
          · exact j4 p.1 h2
          · by_cases h3 : p.1 ∈ todo.map Prod.fst
            · exact absurd (j3 p.1 h1 h3) h2
            · exact j5 p.1 h1 h3
        · exact j4 p.1 h1
    · intro i hi hnone
      rw [hload, aHas_aUpdate] at hnone
      have hsplit := Bool.or_eq_false_iff.mp hnone
      rw [hfs]
      exact j6 i.1 (List.mem_map_of_mem Prod.fst hi) hsplit.1 hsplit.2
  · rw [if_neg hcond] at hledger
    have hload : load_log (run_items env r m fs0 failed0 todo).1.ledger = [] := by
      rw [hledger]
      rfl
    constructor
    · refine ⟨?_, ?_, ?_⟩
      · rw [hload]
        exact List.nodup_nil
      · intro p hp
        rw [hload] at hp
        exact absurd hp (List.not_mem_nil p)
      · intro p hp
        rw [hload] at hp
        exact absurd hp (List.not_mem_nil p)
    · intro i hi _
      have hnfnil : lsF.newFailed.isEmpty = true := by
        rcases Bool.or_eq_false_iff.mp (bool_not_true hcond) with ⟨h1, _⟩
        cases hx : lsF.newFailed.isEmpty
        · rw [hx] at h1; simp at h1
        · rfl
      have hnf : aHas lsF.newFailed i.1 = false := by
        rw [List.isEmpty_iff.mp hnfnil]
        rfl
      have hfail : aHas lsF.failed i.1 = false := by
        cases hx : aHas lsF.failed i.1
        · rfl
        · exact absurd (j3 i.1 hx (List.mem_map_of_mem Prod.fst hi))
            (by rw [hnf]; simp)
      rw [hfs]
      exact j6 i.1 (List.mem_map_of_mem Prod.fst hi) hfail hnf

theorem run_preserves (T : Str → Prop) (env : RunEnv) (r : Bool) (m : Nat)
    (st : St) (hinj : FnameInj T) (henv : GoodEnv T env)
    (hInv : LedgerInv T st) :
    LedgerInv T (runSt env r m st) ∧
    (∀ i ∈ todoOf env r st,
      aHas (load_log (runSt env r m st).ledger) i.1 = false →
      skipValid (runSt env r m st).fs (fnameOf i.1) = true) := by
  obtain ⟨hnd0, hT0, hbad0⟩ := hInv
  by_cases hb : (r && !(load_log st.ledger).isEmpty) = true
  · have hrun : runSt env r m st =
        (run_items env r m st.fs (load_log st.ledger)
          (load_log st.ledger)).1 := by
      unfold runSt
      rw [run_retry_eq env r m st hb]
    rw [hrun, todoOf_retry env r st hb]
    exact run_items_ledgerInv T env r m st.fs (load_log st.ledger)
      (load_log st.ledger) hinj henv.2 hnd0 hT0 hbad0 hnd0 hT0
  · cases hi : env.index with
    | none =>
      have hrun : runSt env r m st = st := by
        unfold runSt
        rw [run_abort_eq env r m st hb hi]
      rw [hrun, todoOf_abort env r st hb hi]
      exact ⟨⟨hnd0, hT0, hbad0⟩, fun i hi2 => absurd hi2 (List.not_mem_nil i)⟩
    | some items =>
      have hrun : runSt env r m st =
          (run_items env r m st.fs (load_log st.ledger) items).1 := by
        unfold runSt
        rw [run_else_eq env r m st items hb hi]
      rw [hrun, todoOf_else env r st items hb hi]
      obtain ⟨hndT, hTt⟩ := henv.1 items hi
      exact run_items_ledgerInv T env r m st.fs (load_log st.ledger)
        items hinj henv.2 hnd0 hT0 hbad0 hndT hTt

theorem runSeq_ledgerInv (T : Str → Prop) (hinj : FnameInj T) :
    ∀ (specs : List RunSpec) (st : St),
      (∀ s ∈ specs, GoodEnv T s.env) →
      LedgerInv T st →
      LedgerInv T (runSeq specs st) := by
  intro specs
  induction specs with
  | nil => intro st _ hInv; exact hInv
  | cons sp rest ih =>
    intro st hall hInv
    have hstep := (run_preserves T sp.env sp.retryFlag sp.maxRetries st hinj
      (hall sp (List.mem_cons_self sp rest)) hInv).1
    exact ih (runSt sp.env sp.retryFlag sp.maxRetries st)
      (fun s hs => hall s (List.mem_cons_of_mem sp hs)) hstep

/-- C1 (amended): relative to a title universe `T` on which sanitized file
names are injective, for environments whose index pages list pairwise
distinct titles from `T` and whose downloads never have length exactly
1024: after any sequence of run/retry invocations starting from an absent
ledger, and one more invocation, (i) every title in the persisted ledger
has an absent-or-invalid local file, and (ii) every title of that
invocation's todo list that is not in the persisted ledger has a present
and valid local file.  (The original, hypothesis-free claim fails at the
1024-byte boundary — see the counterexample — and under sanitized-name
collisions.) -/
theorem ledger_file_invariant (T : Str → Prop) (specs : List RunSpec)
    (sp : RunSpec) (st0 : St)
    (hinj : FnameInj T) (h0 : st0.ledger = none)
    (hall : ∀ s ∈ specs, GoodEnv T s.env) (hsp : GoodEnv T sp.env) :
    (∀ p ∈ load_log (runSt sp.env sp.retryFlag sp.maxRetries
        (runSeq specs st0)).ledger,
      skipValid (runSt sp.env sp.retryFlag sp.maxRetries
        (runSeq specs st0)).fs (fnameOf p.1) = false) ∧
    (∀ i ∈ todoOf sp.env sp.retryFlag (runSeq specs st0),
      aHas (load_log (runSt sp.env sp.retryFlag sp.maxRetries
        (runSeq specs st0)).ledger) i.1 = false →
      skipValid (runSt sp.env sp.retryFlag sp.maxRetries
        (runSeq specs st0)).fs (fnameOf i.1) = true) := by
  have hInv0 : LedgerInv T st0 := by
    refine ⟨?_, ?_, ?_⟩ <;> rw [h0]
    · exact List.nodup_nil
    · intro p hp; exact absurd hp (List.not_mem_nil p)
    · intro p hp; exact absurd hp (List.not_mem_nil p)
  have hInvSeq := runSeq_ledgerInv T hinj specs st0 hall hInv0
  have hmain := run_preserves T sp.env sp.retryFlag sp.maxRetries
    (runSeq specs st0) hinj hsp hInvSeq
  exact ⟨hmain.1.2.2, hmain.2⟩

/-- Witness for the amended C1 at a concrete input: after one run whose
single item fails resolution, the title sits in the ledger and its local
file is absent — hence invalid. -/
theorem ledger_file_invariant_witness :
    skipValid (runSt noLinkEnv false 3 (runSeq [] st0)).fs (fnameOf t1) =
      false := by
  have hgood : GoodEnv (fun t => t = t1) noLinkEnv := by
    constructor
    · intro items hi
      have hitems : items = [(t1, u1)] := by
        have : some [(t1, u1)] = some items := hi ▸ rfl
        simpa using this.symm
      subst hitems
      constructor
      · simp
      · intro p hp
        have : p = (t1, u1) := by simpa using hp
        rw [this]
    · intro url n body h
      simp [noLinkEnv] at h
  have := (ledger_file_invariant (fun t => t = t1) [] ⟨noLinkEnv, false, 3⟩
    st0 (fun a b ha hb _ => ha.trans hb.symm) rfl
    (fun s hs => absurd hs (List.not_mem_nil s)) hgood).1
  exact this (t1, u1) (List.mem_cons_self (t1, u1) [])

end CvprScraper
